import Mathlib

/-!
Verification of the spotify-linker text-processing, caption-patching and
webhook-orchestration logic.

Strings are modelled as `List Char` (a Python `str` is a sequence of code
points).  Each definition in the first part of this file is a direct
translation of a function of the repository; definitions whose names end in
`Described` restate behaviour in the words of the specification and are
related to the translated code by refinement theorems.
-/

/-- Characters accepted by Python's `str.isspace` / stripped by `str.strip()`
and matched by the regex class `\s` on `str` patterns: ASCII whitespace,
the C1 separators 0x1C-0x1F, NEL, and the Unicode space separators. -/
def pyIsSpace (c : Char) : Bool :=
  (0x9 ≤ c.val && c.val ≤ 0xD) || (0x1C ≤ c.val && c.val ≤ 0x1F) ||
  c.val == 0x20 || c.val == 0x85 || c.val == 0xA0 || c.val == 0x1680 ||
  (0x2000 ≤ c.val && c.val ≤ 0x200A) ||
  c.val == 0x2028 || c.val == 0x2029 || c.val == 0x202F || c.val == 0x205F ||
  c.val == 0x3000

/-- `s.lstrip()`. -/
def pyLstrip (l : List Char) : List Char := l.dropWhile pyIsSpace

/-- `s.rstrip()`. -/
def pyRstrip (l : List Char) : List Char := (l.reverse.dropWhile pyIsSpace).reverse

/-- `s.strip()`. -/
def pyStrip (l : List Char) : List Char := pyRstrip (pyLstrip l)

/-- The code points of a Lean string literal, used to transcribe the
string constants of the source. -/
def chars (s : String) : List Char := s.data

/-- Decimal digits of `n`, accumulator-passing; mirrors `str` on a
non-negative Python `int`. -/
def natToStrGo (fuel n : Nat) (acc : List Char) : List Char :=
  match fuel with
  | 0 => acc
  | fuel + 1 =>
    let acc' := Char.ofNat (48 + n % 10) :: acc
    if n < 10 then acc' else natToStrGo fuel (n / 10) acc'

/-- `str(n)` for a non-negative Python `int`. -/
def natToStr (n : Nat) : List Char := natToStrGo (n + 1) n []

/-- `str(n)` for a Python `int`. -/
def intToStr (n : Int) : List Char :=
  if n < 0 then '-' :: natToStr n.natAbs else natToStr n.toNat

/-- Python's substring operator `needle in hay`. -/
def isSubstrB (needle hay : List Char) : Bool := decide (needle <:+: hay)

/-- Truthiness of an `Optional[str]`: `None` and `""` are falsy. -/
def optStrTruthy (o : Option (List Char)) : Bool :=
  match o with
  | none => false
  | some s => !s.isEmpty

/-- `a or b` for `a : Optional[str]`, `b : str`. -/
def pyOrOptStr (a : Option (List Char)) (b : List Char) : List Char :=
  match a with
  | none => b
  | some s => if s.isEmpty then b else s

/-! ## `services/text_parser.py` -/

/-- Worker for `pySubWs`: the flag records whether the scanner is inside a
whitespace run whose single replacement space has already been emitted. -/
def subWsAux (inRun : Bool) (l : List Char) : List Char :=
  match l with
  | [] => []
  | c :: rest =>
    if pyIsSpace c then
      if inRun then subWsAux true rest else ' ' :: subWsAux true rest
    else c :: subWsAux false rest

/-- `re.sub(r"\s+", " ", l)`: each maximal run of whitespace characters is
replaced by a single space (leftmost, non-overlapping greedy matches). -/
def pySubWs (l : List Char) : List Char := subWsAux false l

/-- `extract_track_query` from `services/text_parser.py`. -/
def extract_track_query (content : Option (List Char)) : Option (List Char) :=
  match content with
  | none => none
  | some content =>
    let cleaned := pyStrip content
    if cleaned.isEmpty then none
    else
      let normalized := pySubWs cleaned
      if normalized.isEmpty then none else some normalized

/-- The separator characters of `_ARTIST_TITLE_PATTERN`: hyphen, en dash,
em dash. -/
def isDashChar (c : Char) : Bool := c == '-' || c == '–' || c == '—'

/-- Attempt to match `\s*[-–—]\s*` greedily at the head of `l`; on success
return what follows the match. -/
def matchSepAt (l : List Char) : Option (List Char) :=
  match l.dropWhile pyIsSpace with
  | c :: rest => if isDashChar c then some (rest.dropWhile pyIsSpace) else none
  | [] => none

/-- `_ARTIST_TITLE_PATTERN.split(l, maxsplit=1)`: try to match
`\s*[-–—]\s*` at each position from the left and split at the leftmost
match, returning the parts before and after it, or `none` when the pattern
matches nowhere (on the empty string the pattern never matches, so the
scan just ends). -/
def regexSplitOnce (l : List Char) : Option (List Char × List Char) :=
  match l with
  | [] => none
  | c :: tl =>
    (matchSepAt (c :: tl)).elim
      ((regexSplitOnce tl).map (fun p => (c :: p.1, p.2)))
      (fun rest => some ([], rest))

/-- `split_artist_title` from `services/text_parser.py`. -/
def split_artist_title (query : Option (List Char)) : Option (List Char × List Char) :=
  match query with
  | none => none
  | some q =>
    if q.isEmpty then none
    else
      match regexSplitOnce q with
      | none => none
      | some (l, r) =>
        let artist := pyStrip l
        let title := pyStrip r
        if artist.isEmpty || title.isEmpty then none else some (artist, title)

/-- The `TrackCandidate` dataclass. -/
structure TrackCandidate where
  raw_content : List Char
  query : Option (List Char)
  artist : Option (List Char)
  title : Option (List Char)
deriving DecidableEq

/-- `build_track_candidate` from `services/text_parser.py`. -/
def build_track_candidate (content : Option (List Char)) : Option TrackCandidate :=
  match content with
  | none => none
  | some content =>
    match extract_track_query (some content) with
    | none => none
    | some query =>
      let artistTitle := split_artist_title (some query)
      let artist := artistTitle.map Prod.fst
      let title := artistTitle.map Prod.snd
      some { raw_content := content, query := some query, artist := artist, title := title }

/-! ## JSON values as decoded by `response.json()`

A decoded Python value is `None`, a `bool`, a number, a `str`, a `list` or a
`dict`; numbers are modelled as integers. -/

inductive Json where
  | null : Json
  | bool (b : Bool) : Json
  | num (n : Int) : Json
  | str (s : List Char) : Json
  | arr (items : List Json) : Json
  | obj (fields : List (List Char × Json)) : Json

/-- `d.get(key)` on a decoded JSON object (first binding wins). -/
def dictGet (fields : List (List Char × Json)) (key : List Char) : Option Json :=
  match fields with
  | [] => none
  | (k, v) :: rest => if k = key then some v else dictGet rest key

/-- Python truthiness of a decoded JSON value. -/
def pyTruthy (j : Json) : Bool :=
  match j with
  | .null => false
  | .bool b => b
  | .num n => !(n == 0)
  | .str s => !s.isEmpty
  | .arr items => !items.isEmpty
  | .obj fields => !fields.isEmpty

/-- `repr` of a decoded JSON value (strings are shown between single
quotes; the model does not escape quote or control characters inside
strings, which the repository never relies on). -/
def pyRepr (j : Json) : List Char :=
  match j with
  | .null => chars "None"
  | .bool true => chars "True"
  | .bool false => chars "False"
  | .num n => intToStr n
  | .str s => '\'' :: (s ++ ['\''])
  | .arr items =>
    '[' :: (List.intercalate (chars ", ") (items.attach.map (fun x => pyRepr x.1)) ++ [']'])
  | .obj fields =>
    '\x7b' :: (List.intercalate (chars ", ")
      (fields.attach.map (fun x => '\'' :: (x.1.1 ++ ['\'', ':', ' ']) ++ pyRepr x.1.2)) ++ ['\x7d'])
decreasing_by
  · have h := List.sizeOf_lt_of_mem x.2
    simp only [Json.arr.sizeOf_spec]
    omega
  · have h := List.sizeOf_lt_of_mem x.2
    have h2 : sizeOf x.1.2 < sizeOf x.1 := by
      rcases x with ⟨⟨k, v⟩, hx⟩
      simp only [Prod.mk.sizeOf_spec]
      omega
    simp only [Json.obj.sizeOf_spec]
    omega

/-- `str` of a decoded JSON value. -/
def pyStr (j : Json) : List Char :=
  match j with
  | .str s => s
  | .arr items => pyRepr (.arr items)
  | .obj fields => pyRepr (.obj fields)
  | other => pyRepr other

/-- `isinstance(x, Sequence)` for a decoded JSON value together with the
elements the `for` loop would visit: a `list` yields its items and a `str`
yields its characters as one-character strings (Python `str` is a
`Sequence`); no other decoded value is a `Sequence`. -/
def jsonSeqElems (j : Json) : Option (List Json) :=
  match j with
  | .arr items => some items
  | .str s => some (s.map (fun c => Json.str [c]))
  | _ => none

/-! ## `clients/spotify.py` -/

/-- The `SpotifyTrackSummary` dataclass. -/
structure SpotifyTrackSummary where
  id : List Char
  name : List Char
  artists : List (List Char)
  external_url : List Char := []
deriving DecidableEq

/-- The observable part of an HTTP response: status code, raw body text,
and the decoded JSON body (`none` when `response.json()` raises
`ValueError`). -/
structure HttpResponse where
  status : Nat
  text : List Char
  json : Option Json

/-- Exceptions raised by the embedded code.  `otherError` stands for any
exception that is neither a `ValueError` nor one of the two API error
classes (used for arbitrary failures of the Spotify search step). -/
inductive PyErr where
  | valueError (msg : List Char)
  | telegramAPIError (msg : List Char)
  | spotifyAPIError (msg : List Char)
  | otherError (msg : List Char)
deriving DecidableEq

/-- The `detail` string computed by `SpotifyClient.search_track` for a
non-200 response: explicit `error.message` when present, else the
(stringified) `error` value, else the raw body text, else
`"Unknown error"`. -/
def searchFailDetail (resp : HttpResponse) : List Char :=
  let payloadFields : List (List Char × Json) :=
    match resp.json with
    | some (.obj fields) => fields
    | _ => []
  let errorObj : Json :=
    if payloadFields.isEmpty then .null
    else (dictGet payloadFields (chars "error")).getD .null
  match errorObj with
  | .obj errorFields =>
    match dictGet errorFields (chars "message") with
    | some .null => pyRepr (.obj errorFields)
    | some message => pyStr message
    | none => pyRepr (.obj errorFields)
  | _ =>
    if pyTruthy errorObj then pyStr errorObj
    else if resp.text.isEmpty then chars "Unknown error"
    else resp.text

/-- The full exception message of the non-200 branch of `search_track`. -/
def searchFailMsg (resp : HttpResponse) : List Char :=
  chars "Spotify search request failed: status=" ++ natToStr resp.status ++
    chars ", detail=" ++ searchFailDetail resp

/-- The artists extracted from the first search item: iterate the
`artists` value when it is a `Sequence`, keeping the `name` field of each
`dict` element when that field is a `str`. -/
def extractArtists (artistsVal : Option Json) : List (List Char) :=
  match artistsVal with
  | some av =>
    match jsonSeqElems av with
    | some elems =>
      elems.filterMap (fun a =>
        match a with
        | .obj am =>
          match dictGet am (chars "name") with
          | some (.str nm) => some nm
          | _ => none
        | _ => none)
    | none => []
  | none => []

/-- The `external_url` extracted from the first search item:
`external_urls["spotify"]` stringified when `external_urls` is a `dict`
and the value is not `None`, else the empty string. -/
def extractExternalUrl (urlsVal : Option Json) : List Char :=
  match urlsVal with
  | some (.obj um) =>
    match dictGet um (chars "spotify") with
    | some .null => []
    | some u => pyStr u
    | none => []
  | _ => []

/-- The response-processing logic of `SpotifyClient.search_track`
(the body of its inner `_perform_search` once the HTTP response is at
hand). -/
def perform_search (resp : HttpResponse) : Except PyErr (Option SpotifyTrackSummary) :=
  if resp.status ≠ 200 then .error (.spotifyAPIError (searchFailMsg resp))
  else
    match resp.json with
    | none => .error (.spotifyAPIError (chars "Spotify search response was not valid JSON"))
    | some payload =>
      match payload with
      | .obj payloadFields =>
        match dictGet payloadFields (chars "tracks") with
        | some (.obj tracksFields) =>
          match dictGet tracksFields (chars "items") with
          | some itemsVal =>
            match jsonSeqElems itemsVal with
            | some elems =>
              let itemMappings := elems.filterMap (fun j =>
                match j with
                | .obj f => some f
                | _ => none)
              match itemMappings with
              | [] => .ok none
              | first :: _ =>
                .ok (some
                  { id := pyStr ((dictGet first (chars "id")).getD (.str []))
                    name := pyStr ((dictGet first (chars "name")).getD (.str []))
                    artists := extractArtists (dictGet first (chars "artists"))
                    external_url := extractExternalUrl (dictGet first (chars "external_urls")) })
            | none => .ok none
          | none => .ok none
        | some _ => .ok none
        | none => .ok none
      | _ => .error (.spotifyAPIError (chars "Spotify search response had unexpected format"))

/-! ## `schemas/telegram.py` -/

/-- The `TelegramChat` model. -/
structure TelegramChat where
  id : Int
  title : Option (List Char) := none
  username : Option (List Char) := none
  type : Option (List Char) := none
deriving DecidableEq

/-- The `TelegramAudio` model. -/
structure TelegramAudio where
  performer : Option (List Char) := none
  title : Option (List Char) := none
  file_name : Option (List Char) := none
deriving DecidableEq

/-- The `TelegramMessage` model. -/
structure TelegramMessage where
  message_id : Int
  text : Option (List Char) := none
  caption : Option (List Char) := none
  date : Option Int := none
  chat : Option TelegramChat := none
  audio : Option TelegramAudio := none
deriving DecidableEq

/-- The `TelegramUpdate` model. -/
structure TelegramUpdate where
  update_id : Int
  message : Option TelegramMessage := none
  channel_post : Option TelegramMessage := none
deriving DecidableEq

/-! ## `clients/telegram.py` -/

/-- The `TelegramClient` dataclass (its connection data only). -/
structure TelegramClient where
  bot_token : List Char
  channel_id : List Char
  base_url : List Char := chars "https://api.telegram.org"
deriving DecidableEq

/-- The JSON payload posted to `editMessageCaption`. -/
structure TgEditRequest where
  chat_id : List Char
  message_id : Int
  caption : List Char
deriving DecidableEq

/-- `TelegramClient.edit_message_caption`.  The network is an oracle
`wire` mapping the posted payload to the HTTP response; the first
component of the result is the request actually posted (`none` when the
method raises before any HTTP request is issued). -/
def edit_message_caption (client : TelegramClient) (message_id : Int)
    (caption : List Char) (chat_id : Option (List Char))
    (wire : TgEditRequest → HttpResponse) :
    Option TgEditRequest × Except PyErr Json :=
  let caption_to_use := pyStrip caption
  if caption_to_use.isEmpty then
    (none, .error (.valueError (chars "Telegram captions must contain non-empty text")))
  else
    let target_chat := pyOrOptStr chat_id client.channel_id
    if target_chat.isEmpty then
      (none, .error (.valueError (chars "A chat_id is required to edit a Telegram message caption")))
    else
      let req : TgEditRequest :=
        { chat_id := target_chat, message_id := message_id, caption := caption_to_use }
      let response := wire req
      if response.status ≠ 200 then
        (some req, .error (.telegramAPIError
          (chars "Telegram editMessageCaption request failed: status=" ++
            natToStr response.status ++ chars ", body=" ++ response.text)))
      else
        match response.json with
        | none =>
          (some req, .error (.telegramAPIError
            (chars "Telegram editMessageCaption response was not valid JSON")))
        | some (.obj fields) =>
          if pyTruthy ((dictGet fields (chars "ok")).getD (.bool false)) then
            (some req, .ok (.obj fields))
          else
            (some req, .error (.telegramAPIError
              (chars "Telegram editMessageCaption failed: " ++
                pyStr ((dictGet fields (chars "description")).getD (.str (chars "Unknown error"))))))
        | some _ =>
          (some req, .error (.telegramAPIError
            (chars "Telegram editMessageCaption response had unexpected structure")))

/-! ## `api/webhook.py` -/

/-- The constant `SPOTIFY_LINK_PREFIX` (a headphone emoji and a space). -/
def SPOTIFY_LINK_PREFIX_STR : List Char := chars "🎧 "

/-- `extract_relevant_message`: prefer the channel post over the direct
message. -/
def extract_relevant_message (payload : TelegramUpdate) : Option TelegramMessage :=
  match payload.channel_post with
  | some post => some post
  | none => payload.message

/-- Split a character list on `'/'`. -/
def splitOnSlash (l : List Char) : List (List Char) :=
  match l with
  | [] => [[]]
  | c :: tl =>
    if c == '/' then [] :: splitOnSlash tl
    else
      match splitOnSlash tl with
      | h :: t => (c :: h) :: t
      | [] => [[c]]

/-- `Path(file_name).name` under POSIX rules: parsing drops empty and
`"."` path components, and the name is the last remaining component
(empty when none remains). -/
def pathName (p : List Char) : List Char :=
  let comps := (splitOnSlash p).filter (fun c => !(c.isEmpty || c == ['.']))
  comps.getLast?.getD []

/-- The suffix-removal rule of `PurePath.stem`: cut at the last dot when it
is neither the first nor the last character of the name. -/
def stemOfName (name : List Char) : List Char :=
  match name.reverse.findIdx? (fun c => c == '.') with
  | none => name
  | some r =>
    let i := name.length - 1 - r
    if 0 < i && i < name.length - 1 then name.take i else name

/-- `Path(file_name).stem`. -/
def pathStem (p : List Char) : List Char := stemOfName (pathName p)

/-- `get_message_text` from `api/webhook.py`. -/
def get_message_text (message : TelegramMessage) : Option (List Char) :=
  if optStrTruthy message.caption then message.caption
  else if optStrTruthy message.text then message.text
  else
    match message.audio with
    | some audio =>
      let performer := pyStrip (audio.performer.getD [])
      let title := pyStrip (audio.title.getD [])
      let candidate :=
        if !performer.isEmpty && !title.isEmpty then
          performer ++ chars " - " ++ title
        else if performer.isEmpty then title else performer
      let candidate :=
        if candidate.isEmpty && optStrTruthy audio.file_name then
          pyStrip ((pathStem (audio.file_name.getD [])).map
            (fun c => if c == '_' then ' ' else c))
        else candidate
      let candidate := pyStrip candidate
      if candidate.isEmpty then none else some candidate
    | none => none

/-- `build_spotify_link` from `api/webhook.py`. -/
def build_spotify_link (summary : SpotifyTrackSummary) : List Char :=
  if !summary.external_url.isEmpty then summary.external_url
  else if !summary.id.isEmpty then chars "https://open.spotify.com/track/" ++ summary.id
  else []

/-- `build_caption_with_spotify_link` from `api/webhook.py`. -/
def build_caption_with_spotify_link (existing_caption : Option (List Char))
    (summary : SpotifyTrackSummary) : Option (List Char) :=
  let link := pyStrip (build_spotify_link summary)
  if link.isEmpty then none
  else
    let current := existing_caption.getD []
    let link_line := SPOTIFY_LINK_PREFIX_STR ++ link
    if isSubstrB link_line current || isSubstrB link current then some current
    else if !(pyStrip current).isEmpty then
      if current.getLast? = some '\n' || current.getLast? = some '\r' then
        some (current ++ link_line)
      else some (pyRstrip current ++ '\n' :: link_line)
    else some link_line

/-- `lookup_candidate_on_spotify`: the Spotify search is an oracle from the
query to either a result or a raised exception; every exception is caught
and treated as "no match". -/
def lookup_candidate_on_spotify
    (search : List Char → Except PyErr (Option SpotifyTrackSummary))
    (candidate : TrackCandidate) : Option SpotifyTrackSummary :=
  match candidate.query with
  | none => none
  | some query =>
    if query.isEmpty then none
    else
      match search query with
      | .error _ => none
      | .ok summary => summary

/-- `update_telegram_caption_with_spotify_link`: returns the edit requests
posted to Telegram together with the outcome; a `TelegramAPIError` raised
by the edit call is caught, any other exception propagates. -/
def update_telegram_caption_with_spotify_link (telegram_client : TelegramClient)
    (summary : SpotifyTrackSummary) (source_message : Option TelegramMessage)
    (wire : TgEditRequest → HttpResponse) :
    List TgEditRequest × Except PyErr Unit :=
  match source_message with
  | none => ([], .ok ())
  | some msg =>
    match build_caption_with_spotify_link msg.caption summary with
    | none => ([], .ok ())
    | some new_caption =>
      let current_caption := msg.caption.getD []
      if new_caption = current_caption then ([], .ok ())
      else
        let chat_id := msg.chat.map (fun chat => intToStr chat.id)
        let sent := edit_message_caption telegram_client msg.message_id new_caption chat_id wire
        match sent.2 with
        | .error (.telegramAPIError _) => (sent.1.toList, .ok ())
        | .error e => (sent.1.toList, .error e)
        | .ok _ => (sent.1.toList, .ok ())

/-- The observable outcome of one webhook request: the HTTP result (a
status code, or a propagated exception), the candidates passed to the
Spotify search step and the caption edits posted to Telegram. -/
structure HandlerRun where
  result : Except PyErr Nat
  searched : List TrackCandidate
  edits : List TgEditRequest

/-- The final step of one webhook request: `if summary and
telegram_client:` update the caption (propagating whatever the update
propagates), then respond 204. -/
def finishWithSummary (message : TelegramMessage) (searched : List TrackCandidate)
    (summary : Option SpotifyTrackSummary) (telegram : Option TelegramClient)
    (wire : TgEditRequest → HttpResponse) : HandlerRun :=
  match summary, telegram with
  | some s, some client =>
    let updated := update_telegram_caption_with_spotify_link client s (some message) wire
    match updated.2 with
    | .ok _ => { result := .ok 204, searched := searched, edits := updated.1 }
    | .error e => { result := .error e, searched := searched, edits := updated.1 }
  | _, _ => { result := .ok 204, searched := searched, edits := [] }

/-- The tail of `handle_telegram_webhook` once the message and candidate
are known: optional Spotify lookup, optional Telegram caption update,
then the 204 response. -/
def handleWithMessage (message : TelegramMessage)
    (spotify : Option (List Char → Except PyErr (Option SpotifyTrackSummary)))
    (telegram : Option TelegramClient)
    (wire : TgEditRequest → HttpResponse) : HandlerRun :=
  let candidate := build_track_candidate (get_message_text message)
  let doSearch :=
    spotify.isSome &&
      (match candidate with
       | some cand => optStrTruthy cand.query
       | none => false)
  let searched := if doSearch then candidate.toList else []
  let summary :=
    match spotify, candidate with
    | some search, some cand =>
      if optStrTruthy cand.query then lookup_candidate_on_spotify search cand else none
    | _, _ => none
  finishWithSummary message searched summary telegram wire

/-- `handle_telegram_webhook` from `api/webhook.py`.  The Spotify client
(when configured) is represented by its search behaviour and the Telegram
client by its connection data plus the wire behaviour of the edit call. -/
def handle_telegram_webhook (payload : TelegramUpdate)
    (spotify : Option (List Char → Except PyErr (Option SpotifyTrackSummary)))
    (telegram : Option TelegramClient)
    (wire : TgEditRequest → HttpResponse) : HandlerRun :=
  match extract_relevant_message payload with
  | none => { result := .ok 204, searched := [], edits := [] }
  | some message =>
    match get_message_text message with
    | none => { result := .ok 204, searched := [], edits := [] }
    | some raw_content =>
      if (pyStrip raw_content).isEmpty then { result := .ok 204, searched := [], edits := [] }
      else handleWithMessage message spotify telegram wire

/-! ## Definitions following the specification's words

These restate behaviour the way the specification describes it (amended
where a counterexample forces it); the theorems below relate them to the
translated code. -/

/-- Split a string at the first occurrence of a hyphen-like separator
character, keeping everything after it intact. -/
def splitAtFirstDash (l : List Char) : Option (List Char × List Char) :=
  match l with
  | [] => none
  | c :: tl =>
    if isDashChar c then some ([], tl)
    else (splitAtFirstDash tl).map (fun p => (c :: p.1, p.2))

/-- The splitter as the specification words it: split at the first
hyphen-like separator (surrounding whitespace is absorbed by trimming),
return the trimmed parts only when both are non-empty, `none` otherwise;
dashes after the first separator are left inside the title. -/
def splitArtistTitleDescribed (query : Option (List Char)) : Option (List Char × List Char) :=
  match query with
  | none => none
  | some q =>
    match splitAtFirstDash q with
    | none => none
    | some (l, r) =>
      let artist := pyStrip l
      let title := pyStrip r
      if artist.isEmpty || title.isEmpty then none else some (artist, title)

/-- Auxiliary length bound for the recursions below. -/
theorem dropWhile_length_le (p : Char → Bool) (l : List Char) :
    (l.dropWhile p).length ≤ l.length := by
  induction l with
  | nil => simp
  | cons c tl ih =>
    by_cases hc : p c
    · simp only [List.dropWhile_cons, hc, if_true]
      exact Nat.le_trans ih (Nat.le_succ _)
    · simp [List.dropWhile_cons, hc]

/-- Worker for `wordsOf`: `cur` holds the reversed characters of the word
currently being read. -/
def wordsOfGo (cur : List Char) (l : List Char) : List (List Char) :=
  match l with
  | [] => if cur.isEmpty then [] else [cur.reverse]
  | c :: tl =>
    if pyIsSpace c then
      if cur.isEmpty then wordsOfGo [] tl else cur.reverse :: wordsOfGo [] tl
    else wordsOfGo (c :: cur) tl

/-- The maximal runs of non-whitespace characters of a string, in order. -/
def wordsOf (l : List Char) : List (List Char) := wordsOfGo [] l

/-- Query normalization as the specification words it: `none` for
empty/whitespace-only input, otherwise the input trimmed at both ends with
every internal whitespace run collapsed to a single space (equivalently:
the words joined by single spaces). -/
def normalizeWsDescribed (s : List Char) : Option (List Char) :=
  if wordsOf s = [] then none else some (List.intercalate [' '] (wordsOf s))

/-- Caption patching as the (amended) specification words it: no-op
sentinel when no link can be derived; an existing caption already
containing the link line or the bare link is returned unchanged; a caption
that is empty or whitespace-only is replaced by the link line alone; a
non-blank caption ending in a newline or carriage return gets the link
line appended directly; otherwise trailing whitespace is trimmed and one
newline plus the link line is appended. -/
def patchCaptionDescribed (existing : Option (List Char))
    (summary : SpotifyTrackSummary) : Option (List Char) :=
  let link := pyStrip (build_spotify_link summary)
  if link.isEmpty then none
  else
    let current := existing.getD []
    let link_line := SPOTIFY_LINK_PREFIX_STR ++ link
    if isSubstrB link_line current || isSubstrB link current then some current
    else if (pyStrip current).isEmpty then some link_line
    else if current.getLast? = some '\n' || current.getLast? = some '\r' then
      some (current ++ link_line)
    else some (pyRstrip current ++ '\n' :: link_line)

/-- Audio-derived message text as the specification words it. -/
def audioDerivedDescribed (audio : TelegramAudio) : Option (List Char) :=
  let performer := pyStrip (audio.performer.getD [])
  let title := pyStrip (audio.title.getD [])
  if !performer.isEmpty && !title.isEmpty then
    some (performer ++ chars " - " ++ title)
  else if !performer.isEmpty then some performer
  else if !title.isEmpty then some title
  else
    match audio.file_name with
    | some fn =>
      if fn.isEmpty then none
      else
        let stem := pyStrip ((pathStem fn).map (fun c => if c == '_' then ' ' else c))
        if stem.isEmpty then none else some stem
    | none => none

/-- Message-text extraction as the (amended) specification words it: the
caption when non-empty (even when whitespace-only), else the text when
non-empty, else derived from audio metadata, else `none`. -/
def getMessageTextDescribed (message : TelegramMessage) : Option (List Char) :=
  if optStrTruthy message.caption then message.caption
  else if optStrTruthy message.text then message.text
  else
    match message.audio with
    | some audio => audioDerivedDescribed audio
    | none => none

/-! ## Whitespace and strip lemmas -/

/-- A string whose first character (if any) is not whitespace. -/
def headNotWs (l : List Char) : Bool :=
  match l with
  | [] => true
  | c :: _ => !pyIsSpace c

/-- A string whose last character (if any) is not whitespace. -/
def lastNotWs (l : List Char) : Bool := headNotWs l.reverse

theorem dropWhile_head_false (p : Char → Bool) (l : List Char) {c : Char} {r : List Char}
    (h : l.dropWhile p = c :: r) : p c = false := by
  induction l with
  | nil => simp at h
  | cons a tl ih =>
    by_cases ha : p a
    · exact ih (by simpa [List.dropWhile_cons, ha] using h)
    · simp only [List.dropWhile_cons, ha, if_false] at h
      cases h
      simpa using ha

theorem headNotWs_dropWhile (l : List Char) : headNotWs (l.dropWhile pyIsSpace) = true := by
  cases h : l.dropWhile pyIsSpace with
  | nil => rfl
  | cons c r => simp [headNotWs, dropWhile_head_false pyIsSpace l h]

theorem dropWhile_eq_self_of_headNotWs {l : List Char} (h : headNotWs l = true) :
    l.dropWhile pyIsSpace = l := by
  cases l with
  | nil => rfl
  | cons c tl =>
    simp only [headNotWs, Bool.not_eq_true'] at h
    simp [List.dropWhile_cons, h]

theorem headNotWs_pyLstrip (l : List Char) : headNotWs (pyLstrip l) = true :=
  headNotWs_dropWhile l

theorem lastNotWs_pyRstrip (l : List Char) : lastNotWs (pyRstrip l) = true := by
  simp only [lastNotWs, pyRstrip, List.reverse_reverse]
  exact headNotWs_dropWhile l.reverse

theorem pyRstrip_eq_self_of_lastNotWs {l : List Char} (h : lastNotWs l = true) :
    pyRstrip l = l := by
  simp only [lastNotWs] at h
  simp [pyRstrip, dropWhile_eq_self_of_headNotWs h]

theorem pyLstrip_eq_self_of_headNotWs {l : List Char} (h : headNotWs l = true) :
    pyLstrip l = l := dropWhile_eq_self_of_headNotWs h

theorem pyRstrip_prefixOf (l : List Char) : pyRstrip l <+: l := by
  have h := List.dropWhile_suffix (l := l.reverse) (p := pyIsSpace)
  rw [← List.reverse_prefix] at h
  simpa [pyRstrip] using h

theorem headNotWs_of_prefix {a l : List Char} (hp : a <+: l) (h : headNotWs l = true) :
    headNotWs a = true := by
  obtain ⟨r, rfl⟩ := hp
  cases a with
  | nil => rfl
  | cons c tl => simpa [headNotWs] using h

theorem headNotWs_pyRstrip {l : List Char} (h : headNotWs l = true) :
    headNotWs (pyRstrip l) = true :=
  headNotWs_of_prefix (pyRstrip_prefixOf l) h

theorem headNotWs_pyStrip (l : List Char) : headNotWs (pyStrip l) = true :=
  headNotWs_pyRstrip (headNotWs_pyLstrip l)

theorem lastNotWs_pyStrip (l : List Char) : lastNotWs (pyStrip l) = true :=
  lastNotWs_pyRstrip (pyLstrip l)

theorem pyStrip_eq_self_of_notWs {l : List Char} (h1 : headNotWs l = true)
    (h2 : lastNotWs l = true) : pyStrip l = l := by
  simp [pyStrip, pyLstrip_eq_self_of_headNotWs h1, pyRstrip_eq_self_of_lastNotWs h2]

theorem pyStrip_idem (l : List Char) : pyStrip (pyStrip l) = pyStrip l :=
  pyStrip_eq_self_of_notWs (headNotWs_pyStrip l) (lastNotWs_pyStrip l)

theorem pyRstrip_decomp (l : List Char) :
    ∃ w, l = pyRstrip l ++ w ∧ ∀ c ∈ w, pyIsSpace c = true := by
  refine ⟨(l.reverse.takeWhile pyIsSpace).reverse, ?_, ?_⟩
  · have h2 : l = (l.reverse.takeWhile pyIsSpace ++ l.reverse.dropWhile pyIsSpace).reverse := by
      rw [List.takeWhile_append_dropWhile, List.reverse_reverse]
    conv_lhs => rw [h2]
    rw [List.reverse_append]
    rfl
  · intro c hc
    rw [List.mem_reverse] at hc
    exact List.mem_takeWhile_imp hc

theorem pyLstrip_decomp (l : List Char) :
    ∃ w, l = w ++ pyLstrip l ∧ ∀ c ∈ w, pyIsSpace c = true := by
  refine ⟨l.takeWhile pyIsSpace, ?_, ?_⟩
  · simp [pyLstrip, List.takeWhile_append_dropWhile]
  · intro c hc
    exact List.mem_takeWhile_imp hc

theorem dropWhile_append_all {p : Char → Bool} {u : List Char} (v : List Char)
    (h : ∀ c ∈ u, p c = true) : (u ++ v).dropWhile p = v.dropWhile p := by
  induction u with
  | nil => simp
  | cons c tl ih =>
    have hc : p c = true := h c (by simp)
    simp only [List.cons_append, List.dropWhile_cons, hc, if_true]
    exact ih (fun d hd => h d (by simp [hd]))

theorem dropWhile_eq_nil_of_all {p : Char → Bool} {u : List Char}
    (h : ∀ c ∈ u, p c = true) : u.dropWhile p = [] := by
  have := dropWhile_append_all (p := p) (u := u) [] h
  simpa using this

theorem pyRstrip_append_ws {w : List Char} (a : List Char)
    (hw : ∀ c ∈ w, pyIsSpace c = true) : pyRstrip (a ++ w) = pyRstrip a := by
  simp only [pyRstrip, List.reverse_append]
  rw [dropWhile_append_all a.reverse (fun c hc => hw c (List.mem_reverse.mp hc))]

theorem dropWhile_append_of_ne_nil {p : Char → Bool} {u : List Char} (v : List Char)
    (h : u.dropWhile p ≠ []) : (u ++ v).dropWhile p = u.dropWhile p ++ v := by
  induction u with
  | nil => simp at h
  | cons c tl ih =>
    by_cases hc : p c
    · simp only [List.cons_append, List.dropWhile_cons, hc, if_true] at h ⊢
      exact ih h
    · simp [List.dropWhile_cons, hc]

theorem pyStrip_append_ws {w : List Char} (a : List Char)
    (hw : ∀ c ∈ w, pyIsSpace c = true) : pyStrip (a ++ w) = pyStrip a := by
  simp only [pyStrip, pyLstrip]
  by_cases ha : a.dropWhile pyIsSpace = []
  · rw [dropWhile_append_all (u := a) w (List.dropWhile_eq_nil_iff.mp ha),
      dropWhile_eq_nil_of_all hw, ha]
  · rw [dropWhile_append_of_ne_nil w ha, pyRstrip_append_ws _ hw]

theorem pyStrip_dropWhile (l : List Char) :
    pyStrip (l.dropWhile pyIsSpace) = pyStrip l := by
  simp only [pyStrip, pyLstrip]
  rw [dropWhile_eq_self_of_headNotWs (headNotWs_dropWhile l)]

theorem pyStrip_eq_nil_iff {l : List Char} :
    pyStrip l = [] ↔ ∀ c ∈ l, pyIsSpace c = true := by
  constructor
  · intro h c hc
    obtain ⟨w1, hdec1, hw1⟩ := pyLstrip_decomp l
    obtain ⟨w2, hdec2, hw2⟩ := pyRstrip_decomp (pyLstrip l)
    rw [pyStrip] at h
    rw [h, List.nil_append] at hdec2
    rw [hdec2] at hdec1
    rw [hdec1] at hc
    rcases List.mem_append.mp hc with h1 | h2
    · exact hw1 c h1
    · exact hw2 c h2
  · intro h
    have : pyLstrip l = [] := dropWhile_eq_nil_of_all h
    simp [pyStrip, this, pyRstrip]

theorem pyStrip_ne_nil_of_mem {l : List Char} {c : Char} (hc : c ∈ l)
    (hw : pyIsSpace c = false) : pyStrip l ≠ [] := by
  intro h
  have := pyStrip_eq_nil_iff.mp h c hc
  rw [this] at hw
  exact Bool.true_eq_false.mp hw

/-! ## Word-splitting lemmas -/

theorem takeWhile_append_all {p : Char → Bool} {u : List Char} (v : List Char)
    (h : ∀ c ∈ u, p c = true) : (u ++ v).takeWhile p = u ++ v.takeWhile p := by
  induction u with
  | nil => simp
  | cons c tl ih =>
    have hc : p c = true := h c (by simp)
    simp only [List.cons_append, List.takeWhile_cons, hc, if_true]
    rw [ih (fun d hd => h d (by simp [hd]))]

theorem takeWhile_eq_self_of_all {p : Char → Bool} {u : List Char}
    (h : ∀ c ∈ u, p c = true) : u.takeWhile p = u := by
  have h2 := List.takeWhile_append_dropWhile (p := p) (l := u)
  rw [dropWhile_eq_nil_of_all h, List.append_nil] at h2
  exact h2

theorem takeWhile_append_of_ne_nil {p : Char → Bool} {u : List Char} (v : List Char)
    (h : u.dropWhile p ≠ []) : (u ++ v).takeWhile p = u.takeWhile p := by
  induction u with
  | nil => simp at h
  | cons c tl ih =>
    by_cases hc : p c
    · simp only [List.dropWhile_cons, hc, if_true] at h
      simp only [List.cons_append, List.takeWhile_cons, hc, if_true]
      rw [ih h]
    · simp [List.takeWhile_cons, hc]

theorem wordsOf_nil : wordsOf [] = [] := rfl

theorem wordsOf_cons_ws {c : Char} {tl : List Char} (h : pyIsSpace c = true) :
    wordsOf (c :: tl) = wordsOf tl := by
  simp [wordsOf, wordsOfGo, h]

theorem wordsOfGo_cons_cur : ∀ (tl : List Char) (c0 : Char) (cur' : List Char),
    wordsOfGo (c0 :: cur') tl =
      ((c0 :: cur').reverse ++ tl.takeWhile (fun d => !pyIsSpace d)) ::
        wordsOf (tl.dropWhile (fun d => !pyIsSpace d)) := by
  intro tl
  induction tl with
  | nil =>
    intro c0 cur'
    simp [wordsOfGo, wordsOf]
  | cons d r ih =>
    intro c0 cur'
    by_cases hd : pyIsSpace d
    · have hB : wordsOf (d :: r) = wordsOfGo [] r := by
        simp [wordsOf, wordsOfGo, hd]
      rw [List.takeWhile_cons, List.dropWhile_cons]
      simp [wordsOfGo, hd, hB]
    · have hd' : pyIsSpace d = false := Bool.eq_false_iff.mpr hd
      have hA : wordsOfGo (c0 :: cur') (d :: r) = wordsOfGo (d :: c0 :: cur') r := by
        simp [wordsOfGo, hd']
      rw [hA, ih d (c0 :: cur'), List.takeWhile_cons, List.dropWhile_cons]
      simp [hd']

theorem wordsOf_cons_not {c : Char} {tl : List Char} (h : pyIsSpace c = false) :
    wordsOf (c :: tl) =
      (c :: tl.takeWhile (fun d => !pyIsSpace d)) ::
        wordsOf (tl.dropWhile (fun d => !pyIsSpace d)) := by
  have hA : wordsOf (c :: tl) = wordsOfGo [c] tl := by
    simp [wordsOf, wordsOfGo, h]
  rw [hA, wordsOfGo_cons_cur tl c []]
  simp

theorem wordsOf_nil_of_all {w : List Char} (hw : ∀ c ∈ w, pyIsSpace c = true) :
    wordsOf w = [] := by
  induction w with
  | nil => exact wordsOf_nil
  | cons c tl ih =>
    rw [wordsOf_cons_ws (hw c (by simp))]
    exact ih (fun d hd => hw d (by simp [hd]))

theorem wordsOf_dropWhile_ws (l : List Char) :
    wordsOf (l.dropWhile pyIsSpace) = wordsOf l := by
  induction l with
  | nil => rfl
  | cons c tl ih =>
    by_cases hc : pyIsSpace c
    · rw [List.dropWhile_cons, if_pos hc, ih, wordsOf_cons_ws hc]
    · rw [List.dropWhile_cons, if_neg hc]

theorem wordsOf_append_ws {w : List Char} (hw : ∀ c ∈ w, pyIsSpace c = true) :
    ∀ (n : Nat) (x : List Char), x.length ≤ n → wordsOf (x ++ w) = wordsOf x := by
  intro n
  induction n with
  | zero =>
    intro x hx
    have hxnil : x = [] := List.length_eq_zero.mp (Nat.le_zero.mp hx)
    subst hxnil
    rw [List.nil_append, wordsOf_nil, wordsOf_nil_of_all hw]
  | succ n ih =>
    intro x hx
    match x with
    | [] => rw [List.nil_append, wordsOf_nil, wordsOf_nil_of_all hw]
    | c :: tl =>
      simp only [List.length_cons, Nat.succ_le_succ_iff] at hx
      by_cases hc : pyIsSpace c
      · rw [List.cons_append, wordsOf_cons_ws hc, wordsOf_cons_ws hc]
        exact ih tl hx
      · have hc' : pyIsSpace c = false := Bool.eq_false_iff.mpr hc
        rw [List.cons_append, wordsOf_cons_not hc', wordsOf_cons_not hc']
        cases hd : tl.dropWhile (fun d => !pyIsSpace d) with
        | nil =>
          have htl_all : ∀ d ∈ tl, (!pyIsSpace d) = true := List.dropWhile_eq_nil_iff.mp hd
          have htk : (tl ++ w).takeWhile (fun d => !pyIsSpace d) =
              tl ++ w.takeWhile (fun d => !pyIsSpace d) := takeWhile_append_all w htl_all
          have hwtk : w.takeWhile (fun d => !pyIsSpace d) = [] := by
            cases w with
            | nil => rfl
            | cons w0 w' =>
              have : pyIsSpace w0 = true := hw w0 (by simp)
              simp [List.takeWhile_cons, this]
          have hwdr : w.dropWhile (fun d => !pyIsSpace d) = w := by
            cases w with
            | nil => rfl
            | cons w0 w' =>
              have : pyIsSpace w0 = true := hw w0 (by simp)
              simp [List.dropWhile_cons, this]
          rw [htk, hwtk, List.append_nil, takeWhile_eq_self_of_all htl_all,
            dropWhile_append_all (u := tl) w htl_all, hwdr, wordsOf_nil,
            wordsOf_nil_of_all hw]
        | cons d0 d' =>
          have hne : tl.dropWhile (fun d => !pyIsSpace d) ≠ [] := by
            rw [hd]; simp
          rw [takeWhile_append_of_ne_nil w hne, dropWhile_append_of_ne_nil w hne]
          have hlen : (tl.dropWhile (fun d => !pyIsSpace d)).length ≤ n :=
            Nat.le_trans (dropWhile_length_le _ tl) hx
          rw [ih _ hlen, hd]

theorem pySubWs_nil : pySubWs [] = [] := rfl

theorem subWsAux_true : ∀ tl : List Char,
    subWsAux true tl = subWsAux false (tl.dropWhile pyIsSpace) := by
  intro tl
  induction tl with
  | nil => rfl
  | cons d r ih =>
    by_cases hd : pyIsSpace d
    · simp [subWsAux, hd, List.dropWhile_cons, ih]
    · simp [subWsAux, hd, List.dropWhile_cons]

theorem pySubWs_cons_ws {c : Char} {tl : List Char} (h : pyIsSpace c = true) :
    pySubWs (c :: tl) = ' ' :: pySubWs (tl.dropWhile pyIsSpace) := by
  simp [pySubWs, subWsAux, h, subWsAux_true]

theorem pySubWs_cons_not {c : Char} {tl : List Char} (h : pyIsSpace c = false) :
    pySubWs (c :: tl) = c :: pySubWs tl := by
  simp [pySubWs, subWsAux, h]

theorem pySubWs_ne_nil {l : List Char} (h : l ≠ []) : pySubWs l ≠ [] := by
  cases l with
  | nil => contradiction
  | cons c tl =>
    by_cases hc : pyIsSpace c
    · rw [pySubWs_cons_ws hc]
      simp
    · rw [pySubWs_cons_not (Bool.eq_false_iff.mpr hc)]
      simp

theorem pySubWs_nonws_append {t : List Char} (d : List Char)
    (h : ∀ c ∈ t, pyIsSpace c = false) : pySubWs (t ++ d) = t ++ pySubWs d := by
  induction t with
  | nil => simp
  | cons c tl ih =>
    have hc := h c (by simp)
    rw [List.cons_append, pySubWs_cons_not hc, ih (fun x hx => h x (by simp [hx]))]
    rfl

theorem intercalate_singleton (s x : List Char) : List.intercalate s [x] = x := by
  simp [List.intercalate]

theorem intercalate_cons_ne_nil (s x : List Char) {xs : List (List Char)} (h : xs ≠ []) :
    List.intercalate s (x :: xs) = x ++ s ++ List.intercalate s xs := by
  cases xs with
  | nil => contradiction
  | cons y t => simp [List.intercalate, List.append_assoc]

theorem headNotWs_append_left {x : List Char} (y : List Char) (hx : x ≠ []) :
    headNotWs (x ++ y) = headNotWs x := by
  cases x with
  | nil => contradiction
  | cons c t => rfl

theorem lastNotWs_append_right (x : List Char) {y : List Char} (hy : y ≠ []) :
    lastNotWs (x ++ y) = lastNotWs y := by
  simp only [lastNotWs, List.reverse_append]
  exact headNotWs_append_left x.reverse (by simpa using hy)

theorem lastNotWs_cons {c : Char} {tl : List Char} (h : tl ≠ []) :
    lastNotWs (c :: tl) = lastNotWs tl := by
  have h2 := lastNotWs_append_right [c] (y := tl) h
  simpa using h2

theorem wordsOf_pyStrip (l : List Char) : wordsOf (pyStrip l) = wordsOf l := by
  obtain ⟨w2, hdec2, hw2⟩ := pyRstrip_decomp (pyLstrip l)
  have h1 : wordsOf (pyLstrip l) = wordsOf l := wordsOf_dropWhile_ws l
  have h2 : wordsOf (pyRstrip (pyLstrip l) ++ w2) = wordsOf (pyRstrip (pyLstrip l)) :=
    wordsOf_append_ws hw2 _ _ Nat.le.refl
  have hdef : pyStrip l = pyRstrip (pyLstrip l) := rfl
  rw [hdef, ← h1, ← h2, ← hdec2]

theorem wordsOf_eq_nil_iff {l : List Char} :
    wordsOf l = [] ↔ ∀ c ∈ l, pyIsSpace c = true := by
  induction l with
  | nil => simp [wordsOf_nil]
  | cons c tl ih =>
    by_cases hc : pyIsSpace c
    · rw [wordsOf_cons_ws hc, ih]
      simp [hc]
    · rw [wordsOf_cons_not (Bool.eq_false_iff.mpr hc)]
      simp [hc]

theorem pySubWs_eq_intercalate :
    ∀ (n : Nat) (l : List Char), l.length ≤ n → headNotWs l = true → lastNotWs l = true →
      pySubWs l = List.intercalate [' '] (wordsOf l) := by
  intro n
  induction n with
  | zero =>
    intro l hl _ _
    have hnil : l = [] := List.length_eq_zero.mp (Nat.le_zero.mp hl)
    subst hnil
    rw [pySubWs_nil, wordsOf_nil]
    simp [List.intercalate]
  | succ n ih =>
    intro l hl h1 h2
    match l with
    | [] =>
      rw [pySubWs_nil, wordsOf_nil]
      simp [List.intercalate]
    | a :: tl =>
      simp only [List.length_cons, Nat.succ_le_succ_iff] at hl
      have ha : pyIsSpace a = false := by simpa [headNotWs] using h1
      rw [pySubWs_cons_not ha, wordsOf_cons_not ha]
      have hsplit := List.takeWhile_append_dropWhile (p := fun d => !pyIsSpace d) (l := tl)
      have htall : ∀ c ∈ tl.takeWhile (fun d => !pyIsSpace d), pyIsSpace c = false := by
        intro c hc
        have := List.mem_takeWhile_imp hc
        simpa using this
      have hsub : pySubWs tl = tl.takeWhile (fun d => !pyIsSpace d) ++
          pySubWs (tl.dropWhile (fun d => !pyIsSpace d)) := by
        conv_lhs => rw [← hsplit]
        exact pySubWs_nonws_append _ htall
      rw [hsub]
      cases hd : tl.dropWhile (fun d => !pyIsSpace d) with
      | nil =>
        rw [pySubWs_nil, List.append_nil, wordsOf_nil, intercalate_singleton]
      | cons w0 d' =>
        have hw0 : pyIsSpace w0 = true := by
          have := dropWhile_head_false (fun d => !pyIsSpace d) tl hd
          simpa using this
        rw [pySubWs_cons_ws hw0]
        have htl : tl ≠ [] := by
          intro h0
          rw [h0] at hd
          simp at hd
        have htlrec : tl = tl.takeWhile (fun d => !pyIsSpace d) ++ (w0 :: d') := by
          conv_lhs => rw [← hsplit]
          rw [hd]
        have hltl : lastNotWs tl = true := by
          rw [← lastNotWs_cons htl]
          exact h2
        have hd'ne : d' ≠ [] := by
          intro h0
          subst h0
          have hlw : lastNotWs tl = lastNotWs [w0] := by
            rw [htlrec]
            exact lastNotWs_append_right _ (by simp)
          rw [hlw] at hltl
          simp [lastNotWs, headNotWs, hw0] at hltl
        have hlast_d' : lastNotWs d' = true := by
          have hA : lastNotWs tl = lastNotWs (w0 :: d') := by
            rw [htlrec]
            exact lastNotWs_append_right _ (by simp)
          have hB : lastNotWs (w0 :: d') = lastNotWs d' := lastNotWs_cons hd'ne
          rw [hA, hB] at hltl
          exact hltl
        have he_ne : d'.dropWhile pyIsSpace ≠ [] := by
          intro h0
          have hall : ∀ c ∈ d', pyIsSpace c = true := List.dropWhile_eq_nil_iff.mp h0
          cases hrev : d'.reverse with
          | nil => exact hd'ne (by simpa using congrArg List.reverse hrev)
          | cons c0 rr =>
            have hcmem : c0 ∈ d' := by
              have hm : c0 ∈ d'.reverse := by
                rw [hrev]
                simp
              simpa using hm
            have hc0 := hall c0 hcmem
            rw [lastNotWs, hrev] at hlast_d'
            simp [headNotWs, hc0] at hlast_d'
        obtain ⟨wp, hdp, hwp⟩ := pyLstrip_decomp d'
        have hlast_e : lastNotWs (d'.dropWhile pyIsSpace) = true := by
          have hA : lastNotWs (wp ++ pyLstrip d') = lastNotWs (pyLstrip d') :=
            lastNotWs_append_right wp he_ne
          rw [hdp] at hlast_d'
          rw [hA] at hlast_d'
          exact hlast_d'
        have hhead_e : headNotWs (d'.dropWhile pyIsSpace) = true := headNotWs_dropWhile d'
        have hlen_d' : d'.length ≤ n := by
          have hlen_tl : tl.length = (tl.takeWhile (fun d => !pyIsSpace d)).length + (w0 :: d').length := by
            conv_lhs => rw [htlrec]
            rw [List.length_append]
          simp only [List.length_cons] at hlen_tl
          omega
        have hlen_e : (d'.dropWhile pyIsSpace).length ≤ n :=
          Nat.le_trans (dropWhile_length_le _ d') hlen_d'
        have hrec := ih _ hlen_e hhead_e hlast_e
        rw [hrec]
        have hwA : wordsOf (w0 :: d') = wordsOf d' := wordsOf_cons_ws hw0
        have hwB : wordsOf d' = wordsOf (d'.dropWhile pyIsSpace) := (wordsOf_dropWhile_ws d').symm
        rw [hwA, hwB]
        have hwne : wordsOf (d'.dropWhile pyIsSpace) ≠ [] := by
          cases he : d'.dropWhile pyIsSpace with
          | nil => exact absurd he he_ne
          | cons e0 er =>
            have he0 : pyIsSpace e0 = false := dropWhile_head_false pyIsSpace d' he
            rw [wordsOf_cons_not he0]
            simp
        rw [intercalate_cons_ne_nil _ _ hwne]
        simp

/-! ## Claim theorems -/

/-- C9: `extract_track_query` returns `none` for null, empty, or
whitespace-only input; for every other string it returns the input trimmed
at both ends with every internal run of whitespace characters collapsed to
a single space (the words of the input joined by single spaces). -/
theorem claim_C9 :
    extract_track_query none = none ∧
    ∀ s : List Char,
      extract_track_query (some s) = normalizeWsDescribed s ∧
      (normalizeWsDescribed s = none ↔ ∀ c ∈ s, pyIsSpace c = true) := by
  refine ⟨rfl, fun s => ⟨?_, ?_⟩⟩
  · by_cases hnil : pyStrip s = []
    · have hw : wordsOf s = [] := by rw [← wordsOf_pyStrip s, hnil, wordsOf_nil]
      simp [extract_track_query, normalizeWsDescribed, hnil, hw]
    · have hwne : wordsOf s ≠ [] := by
        rw [← wordsOf_pyStrip s]
        cases hc : pyStrip s with
        | nil => exact absurd hc hnil
        | cons c0 r =>
          have hh := headNotWs_pyStrip s
          rw [hc] at hh
          have h0 : pyIsSpace c0 = false := by simpa [headNotWs] using hh
          rw [wordsOf_cons_not h0]
          simp
      have heq : pySubWs (pyStrip s) = List.intercalate [' '] (wordsOf s) := by
        rw [← wordsOf_pyStrip s]
        exact pySubWs_eq_intercalate (pyStrip s).length _ Nat.le.refl
          (headNotWs_pyStrip s) (lastNotWs_pyStrip s)
      have hsubne : pySubWs (pyStrip s) ≠ [] := pySubWs_ne_nil hnil
      have hintne : List.intercalate [' '] (wordsOf s) ≠ [] := heq ▸ hsubne
      simp [extract_track_query, normalizeWsDescribed, hnil, hwne, heq, hsubne, hintne]
  · rw [normalizeWsDescribed]
    by_cases hw : wordsOf s = []
    · rw [if_pos hw]
      constructor
      · intro _
        exact wordsOf_eq_nil_iff.mp hw
      · intro _
        rfl
    · rw [if_neg hw]
      constructor
      · intro h
        exact absurd h (Option.some_ne_none _)
      · intro hall
        exact absurd (wordsOf_eq_nil_iff.mpr hall) hw

/-- Witness for C9 at concrete inputs. -/
theorem claim_C9_witness :
    extract_track_query (some (chars "  a   b ")) = normalizeWsDescribed (chars "  a   b ") ∧
    extract_track_query (some (chars "   ")) = none ∧
    extract_track_query (some (chars "  a   b ")) = some (chars "a b") :=
  ⟨(claim_C9.2 (chars "  a   b ")).1, by decide, by decide⟩

/-- C7: `build_spotify_link` returns the summary's `external_url` verbatim
when non-empty; else the synthesized track URL when `id` is non-empty;
else the empty string. -/
theorem claim_C7 :
    ∀ s : SpotifyTrackSummary,
      (s.external_url ≠ [] → build_spotify_link s = s.external_url) ∧
      (s.external_url = [] → s.id ≠ [] →
        build_spotify_link s = chars "https://open.spotify.com/track/" ++ s.id) ∧
      (s.external_url = [] → s.id = [] → build_spotify_link s = []) := by
  intro s
  refine ⟨?_, ?_, ?_⟩
  · intro h
    rw [build_spotify_link, if_pos]
    simpa [List.isEmpty_eq_false] using h
  · intro h1 h2
    rw [build_spotify_link, if_neg (by simp [h1]), if_pos]
    simpa [List.isEmpty_eq_false] using h2
  · intro h1 h2
    rw [build_spotify_link, if_neg (by simp [h1]), if_neg (by simp [h2])]

/-- Witness for C7 at concrete inputs. -/
theorem claim_C7_witness :
    build_spotify_link { id := ['i'], name := [], artists := [], external_url := ['u'] } = ['u'] ∧
    build_spotify_link { id := ['i'], name := [], artists := [], external_url := [] } =
      chars "https://open.spotify.com/track/" ++ ['i'] ∧
    build_spotify_link { id := [], name := [], artists := [], external_url := [] } = [] :=
  ⟨(claim_C7 _).1 (by decide), (claim_C7 _).2.1 rfl (by decide), (claim_C7 _).2.2 rfl rfl⟩

/-! ## Splitter lemmas (C8) -/

theorem dash_not_ws {c : Char} (h : isDashChar c = true) : pyIsSpace c = false := by
  have h3 : (c = '-' ∨ c = '–') ∨ c = '—' := by simpa [isDashChar] using h
  rcases h3 with (rfl | rfl) | rfl <;> decide

theorem ws_not_dash {c : Char} (h : pyIsSpace c = true) : isDashChar c = false := by
  by_cases hd : isDashChar c = true
  · rw [dash_not_ws hd] at h
    exact absurd h (by simp)
  · exact Bool.eq_false_iff.mpr hd

theorem splitAtFirstDash_append_no_dash {w : List Char}
    (hw : ∀ c ∈ w, isDashChar c = false) (z : List Char) :
    splitAtFirstDash (w ++ z) =
      (splitAtFirstDash z).map (fun p => (w ++ p.1, p.2)) := by
  induction w with
  | nil =>
    simp only [List.nil_append]
    cases h : splitAtFirstDash z <;> simp
  | cons d w' ih =>
    have hd : isDashChar d = false := hw d (by simp)
    rw [List.cons_append]
    simp only [splitAtFirstDash, hd, if_false, Bool.false_eq_true]
    rw [ih (fun c hc => hw c (by simp [hc]))]
    cases splitAtFirstDash z <;> simp

theorem matchSepAt_some {q rest : List Char} (h : matchSepAt q = some rest) :
    ∃ d r0, q.dropWhile pyIsSpace = d :: r0 ∧ isDashChar d = true ∧
      rest = r0.dropWhile pyIsSpace := by
  rw [matchSepAt] at h
  cases hdrop : q.dropWhile pyIsSpace with
  | nil => rw [hdrop] at h; cases h
  | cons d r0 =>
    rw [hdrop] at h
    by_cases hd : isDashChar d = true
    · simp only [hd, if_true] at h
      exact ⟨d, r0, rfl, hd, (Option.some.inj h).symm⟩
    · simp [hd] at h

theorem regexSplitOnce_nil : regexSplitOnce [] = none := rfl

theorem regexSplitOnce_cons_eq (c : Char) (tl : List Char) :
    regexSplitOnce (c :: tl) =
      (matchSepAt (c :: tl)).elim
        ((regexSplitOnce tl).map (fun p => (c :: p.1, p.2)))
        (fun rest => some ([], rest)) := rfl

theorem regexSplitOnce_match_some {c : Char} {tl rest : List Char}
    (hm : matchSepAt (c :: tl) = some rest) :
    regexSplitOnce (c :: tl) = some ([], rest) := by
  rw [regexSplitOnce_cons_eq, hm]
  rfl

theorem regexSplitOnce_match_none {c : Char} {tl : List Char}
    (hm : matchSepAt (c :: tl) = none) :
    regexSplitOnce (c :: tl) = (regexSplitOnce tl).map (fun p => (c :: p.1, p.2)) := by
  rw [regexSplitOnce_cons_eq, hm]
  rfl

theorem regexSplit_rel : ∀ q : List Char,
    (regexSplitOnce q = none ↔ splitAtFirstDash q = none) ∧
    (∀ a b, regexSplitOnce q = some (a, b) →
      ∃ w r, splitAtFirstDash q = some (a ++ w, r) ∧ (∀ c ∈ w, pyIsSpace c = true) ∧
        b = r.dropWhile pyIsSpace) := by
  intro q
  induction q with
  | nil =>
    constructor
    · simp [regexSplitOnce_nil]
      rfl
    · intro a b h
      rw [regexSplitOnce_nil] at h
      cases h
  | cons c tl ih =>
    cases hm : matchSepAt (c :: tl) with
    | some rest =>
      have hreg : regexSplitOnce (c :: tl) = some ([], rest) := regexSplitOnce_match_some hm
      obtain ⟨d, r0, hdrop, hdash, hrest⟩ := matchSepAt_some hm
      have hqdec : c :: tl = (c :: tl).takeWhile pyIsSpace ++ (d :: r0) := by
        rw [← hdrop, List.takeWhile_append_dropWhile]
      have hwall : ∀ x ∈ (c :: tl).takeWhile pyIsSpace, pyIsSpace x = true :=
        fun x hx => List.mem_takeWhile_imp hx
      have hnodash : ∀ x ∈ (c :: tl).takeWhile pyIsSpace, isDashChar x = false :=
        fun x hx => ws_not_dash (hwall x hx)
      have hsplit : splitAtFirstDash (c :: tl) =
          some ((c :: tl).takeWhile pyIsSpace, r0) := by
        have h4 : splitAtFirstDash (c :: tl) =
            splitAtFirstDash ((c :: tl).takeWhile pyIsSpace ++ (d :: r0)) := by
          rw [← hqdec]
        rw [h4, splitAtFirstDash_append_no_dash hnodash]
        simp [splitAtFirstDash, hdash]
      constructor
      · rw [hreg, hsplit]
        simp
      · intro a b h
        rw [hreg] at h
        simp only [Option.some.injEq, Prod.mk.injEq] at h
        obtain ⟨rfl, rfl⟩ := h
        refine ⟨(c :: tl).takeWhile pyIsSpace, r0, ?_, hwall, hrest⟩
        rw [hsplit]
        simp
    | none =>
      have hreg : regexSplitOnce (c :: tl) =
          (regexSplitOnce tl).map (fun p => (c :: p.1, p.2)) := regexSplitOnce_match_none hm
      have hcnd : isDashChar c = false := by
        by_cases hcd : isDashChar c = true
        · have hws : pyIsSpace c = false := dash_not_ws hcd
          have : matchSepAt (c :: tl) = some (tl.dropWhile pyIsSpace) := by
            rw [matchSepAt, List.dropWhile_cons, if_neg (by simp [hws])]
            simp [hcd]
          rw [this] at hm
          cases hm
        · exact Bool.eq_false_iff.mpr hcd
      have hspl : splitAtFirstDash (c :: tl) =
          (splitAtFirstDash tl).map (fun p => (c :: p.1, p.2)) := by
        simp [splitAtFirstDash, hcnd]
      obtain ⟨ihiff, ihsome⟩ := ih
      constructor
      · rw [hreg, hspl]
        cases hr : regexSplitOnce tl with
        | none =>
          rw [ihiff.mp hr]
        | some p =>
          cases hs : splitAtFirstDash tl with
          | none =>
            have h2 := ihiff.mpr hs
            rw [hr] at h2
            cases h2
          | some p2 => simp
      · intro a b h
        rw [hreg] at h
        cases hr : regexSplitOnce tl with
        | none =>
          rw [hr] at h
          cases h
        | some p =>
          rw [hr] at h
          simp only [Option.map_some', Option.some.injEq, Prod.mk.injEq] at h
          obtain ⟨rfl, rfl⟩ := h
          obtain ⟨w, r, hsp, hw, hb⟩ := ihsome p.1 p.2 (by rw [hr])
          refine ⟨w, r, ?_, hw, hb⟩
          rw [hspl, hsp]
          simp

/-- C8: `split_artist_title` splits only at the first occurrence of a
hyphen-like separator (hyphen, en dash, em dash, with optional surrounding
whitespace absorbed by trimming), returns the pair of trimmed parts only
when both are non-empty, and returns `none` otherwise; dashes after the
first separator are left inside the title. -/
theorem claim_C8 : ∀ q : Option (List Char),
    split_artist_title q = splitArtistTitleDescribed q := by
  intro q
  cases q with
  | none => rfl
  | some q =>
    by_cases hq : q = []
    · subst hq
      rfl
    · obtain ⟨hiff, hsome⟩ := regexSplit_rel q
      have hqe : q.isEmpty = false := by simpa [List.isEmpty_eq_false] using hq
      cases hr : regexSplitOnce q with
      | none =>
        have hs := hiff.mp hr
        simp [split_artist_title, splitArtistTitleDescribed, hqe, hr, hs]
      | some p =>
        obtain ⟨a, b⟩ := p
        obtain ⟨w, r, hsp, hw, hb⟩ := hsome a b hr
        have h1 : pyStrip (a ++ w) = pyStrip a := pyStrip_append_ws a hw
        have h2 : pyStrip b = pyStrip r := by rw [hb, pyStrip_dropWhile]
        simp only [split_artist_title, splitArtistTitleDescribed, hqe, hr, hsp,
          Bool.false_eq_true, if_false]
        rw [h1, h2]

/-- Witness for C8 at the specification's example inputs. -/
theorem claim_C8_witness :
    split_artist_title (some (chars "Artist - Title")) =
      splitArtistTitleDescribed (some (chars "Artist - Title")) ∧
    split_artist_title (some (chars "Artist - Title")) =
      some (chars "Artist", chars "Title") ∧
    split_artist_title (some (chars "Artist-Title")) =
      some (chars "Artist", chars "Title") ∧
    split_artist_title (some (chars "Artist - ")) = none ∧
    split_artist_title (some (chars "NoSeparator")) = none ∧
    split_artist_title (some (chars "A - B - C")) = some (chars "A", chars "B - C") :=
  ⟨claim_C8 _, by decide, by decide, by decide, by decide, by decide⟩

/-! ## Caption-patching lemmas (C3, C4) -/

theorem isSubstrB_eq_true {a b : List Char} : isSubstrB a b = true ↔ a <:+: b := by
  simp [isSubstrB]

theorem build_caption_eq_none_iff (c : Option (List Char)) (s : SpotifyTrackSummary) :
    build_caption_with_spotify_link c s = none ↔ pyStrip (build_spotify_link s) = [] := by
  unfold build_caption_with_spotify_link
  dsimp only
  by_cases hl : (pyStrip (build_spotify_link s)).isEmpty
  · simp [hl, List.isEmpty_iff.mp hl]
  · rw [if_neg hl]
    constructor
    · intro h
      split_ifs at h
    · intro h
      exact absurd (by simp [h] : (pyStrip (build_spotify_link s)).isEmpty = true) hl

theorem build_caption_contains {c : Option (List Char)} {s : SpotifyTrackSummary}
    {r : List Char} (h : build_caption_with_spotify_link c s = some r) :
    pyStrip (build_spotify_link s) <:+: r := by
  unfold build_caption_with_spotify_link at h
  dsimp only at h
  split_ifs at h with h1 h2 h3 h4
  · have hr : r = c.getD [] := (Option.some.inj h).symm
    subst hr
    rcases Bool.or_eq_true _ _ |>.mp h2 with hc | hc
    · have hline := isSubstrB_eq_true.mp hc
      exact List.IsInfix.trans ((List.suffix_append _ _).isInfix) hline
    · exact isSubstrB_eq_true.mp hc
  · have hr : r = c.getD [] ++ (SPOTIFY_LINK_PREFIX_STR ++ pyStrip (build_spotify_link s)) :=
      (Option.some.inj h).symm
    subst hr
    exact ((List.suffix_append _ _).isInfix).trans ((List.suffix_append _ _).isInfix)
  · have hr : r = pyRstrip (c.getD []) ++
        '\n' :: (SPOTIFY_LINK_PREFIX_STR ++ pyStrip (build_spotify_link s)) :=
      (Option.some.inj h).symm
    subst hr
    have hsfx : pyStrip (build_spotify_link s) <:+
        pyRstrip (c.getD []) ++
          '\n' :: (SPOTIFY_LINK_PREFIX_STR ++ pyStrip (build_spotify_link s)) := by
      rw [List.append_cons, ← List.append_assoc]
      exact List.suffix_append _ _
    exact hsfx.isInfix
  · have hr : r = SPOTIFY_LINK_PREFIX_STR ++ pyStrip (build_spotify_link s) :=
      (Option.some.inj h).symm
    subst hr
    exact (List.suffix_append _ _).isInfix

/-- C3: caption patching is idempotent: for every caption (including
`none`/empty) and every summary whose derived Spotify link is non-empty,
applying `build_caption_with_spotify_link` a second time returns the first
result unchanged and never duplicates the link line. -/
theorem claim_C3 :
    ∀ (c : Option (List Char)) (s : SpotifyTrackSummary),
      build_spotify_link s ≠ [] →
      build_caption_with_spotify_link (build_caption_with_spotify_link c s) s =
        build_caption_with_spotify_link c s := by
  intro c s _
  cases hb : build_caption_with_spotify_link c s with
  | none =>
    exact (build_caption_eq_none_iff none s).mpr ((build_caption_eq_none_iff c s).mp hb)
  | some r =>
    have hstrip : pyStrip (build_spotify_link s) ≠ [] := by
      intro h0
      rw [(build_caption_eq_none_iff c s).mpr h0] at hb
      cases hb
    have hcont := build_caption_contains hb
    unfold build_caption_with_spotify_link
    dsimp only
    simp only [Option.getD]
    rw [if_neg (by simp only [List.isEmpty_iff]; exact hstrip)]
    have hcond : (isSubstrB (SPOTIFY_LINK_PREFIX_STR ++ pyStrip (build_spotify_link s)) r ||
        isSubstrB (pyStrip (build_spotify_link s)) r) = true := by
      have h2 : isSubstrB (pyStrip (build_spotify_link s)) r = true :=
        isSubstrB_eq_true.mpr hcont
      simp [h2]
    rw [if_pos hcond]

/-- Witness for C3 at a concrete caption and summary. -/
theorem claim_C3_witness :
    build_caption_with_spotify_link
        (build_caption_with_spotify_link (some (chars "Great song"))
          { id := chars "42", name := chars "N", artists := [], external_url := chars "u" })
        { id := chars "42", name := chars "N", artists := [], external_url := chars "u" } =
      build_caption_with_spotify_link (some (chars "Great song"))
        { id := chars "42", name := chars "N", artists := [], external_url := chars "u" } :=
  claim_C3 _ _ (by decide)

/-- C4 counterexample: the claim as stated mispredicts whitespace-only
captions and captions ending in a carriage return.  For the caption
`"\n"` (non-empty and ending in a newline) the claim predicts the link
line appended directly, but the code returns the link line alone; for the
caption `"a\r"` the claim predicts trailing whitespace trimmed plus a
newline, but the code appends directly after the carriage return. -/
theorem claim_C4_counterexample :
    build_caption_with_spotify_link (some ['\n'])
        { id := [], name := [], artists := [], external_url := ['u'] } =
      some (SPOTIFY_LINK_PREFIX_STR ++ ['u']) ∧
    build_caption_with_spotify_link (some ['\n'])
        { id := [], name := [], artists := [], external_url := ['u'] } ≠
      some ('\n' :: (SPOTIFY_LINK_PREFIX_STR ++ ['u'])) ∧
    build_caption_with_spotify_link (some ['a', '\r'])
        { id := [], name := [], artists := [], external_url := ['u'] } =
      some ('a' :: '\r' :: (SPOTIFY_LINK_PREFIX_STR ++ ['u'])) ∧
    build_caption_with_spotify_link (some ['a', '\r'])
        { id := [], name := [], artists := [], external_url := ['u'] } ≠
      some ('a' :: '\n' :: (SPOTIFY_LINK_PREFIX_STR ++ ['u'])) := by
  refine ⟨by decide, by decide, by decide, by decide⟩

/-- C4 (amended): `build_caption_with_spotify_link` behaves exactly as
`patchCaptionDescribed`: with a non-empty derived link, a caption already
containing the link line or bare link is returned unchanged; an empty or
whitespace-only caption is replaced by prefix-plus-link alone; a non-blank
caption ending in a newline or carriage return gets the link line appended
directly; otherwise trailing whitespace is trimmed and exactly one newline
plus the link line is appended. -/
theorem claim_C4 :
    ∀ (existing : Option (List Char)) (s : SpotifyTrackSummary),
      build_caption_with_spotify_link existing s = patchCaptionDescribed existing s := by
  intro existing s
  unfold build_caption_with_spotify_link patchCaptionDescribed
  dsimp only
  by_cases h1 : (pyStrip (build_spotify_link s)).isEmpty = true
  · rw [if_pos h1, if_pos h1]
  · rw [if_neg h1, if_neg h1]
    by_cases h2 : (isSubstrB (SPOTIFY_LINK_PREFIX_STR ++ pyStrip (build_spotify_link s))
        (existing.getD []) ||
        isSubstrB (pyStrip (build_spotify_link s)) (existing.getD [])) = true
    · rw [if_pos h2, if_pos h2]
    · rw [if_neg h2, if_neg h2]
      by_cases h3 : (pyStrip (existing.getD [])).isEmpty = true
      · rw [if_neg (by simp [h3]), if_pos h3]
      · rw [if_pos (by simp [Bool.eq_false_iff.mpr h3]), if_neg h3]

/-- Witness for C4 at a concrete caption and summary. -/
theorem claim_C4_witness :
    build_caption_with_spotify_link (some (chars "Great song"))
        { id := [], name := [], artists := [], external_url := ['u'] } =
      patchCaptionDescribed (some (chars "Great song"))
        { id := [], name := [], artists := [], external_url := ['u'] } ∧
    build_caption_with_spotify_link (some (chars "Great song"))
        { id := [], name := [], artists := [], external_url := ['u'] } =
      some (chars "Great song" ++ '\n' :: (SPOTIFY_LINK_PREFIX_STR ++ ['u'])) :=
  ⟨claim_C4 _ _, by decide⟩

/-! ## Message-text extraction (C2) -/

theorem pyStrip_nil_eq : pyStrip [] = [] := rfl

theorem pyStrip_join_noop {p t : List Char} (m : List Char) (hp : headNotWs p = true)
    (hpne : p ≠ []) (ht : lastNotWs t = true) (htne : t ≠ []) :
    pyStrip (p ++ m ++ t) = p ++ m ++ t := by
  apply pyStrip_eq_self_of_notWs
  · have hpm : p ++ m ≠ [] := by simp [hpne]
    rw [headNotWs_append_left _ hpm, headNotWs_append_left _ hpne]
    exact hp
  · rw [lastNotWs_append_right _ htne]
    exact ht

/-- C2 counterexample: the claim says the caption is used only when it is
non-empty after trimming, but the code uses any non-empty caption;
a message with caption `" "` and text `"x"` yields `" "`, not `"x"`. -/
theorem claim_C2_counterexample :
    get_message_text { message_id := 1, text := some ['x'], caption := some [' '] } =
      some [' '] ∧
    get_message_text { message_id := 1, text := some ['x'], caption := some [' '] } ≠
      some ['x'] :=
  ⟨by decide, by decide⟩

/-- C2 (amended): `get_message_text` returns the caption if it is
non-empty (even when whitespace-only); otherwise the text if non-empty;
otherwise text derived from audio metadata (both performer and title
trimmed non-empty gives "performer - title", else whichever is non-empty,
else the file-name stem with underscores replaced by spaces, trimmed);
`none` if nothing usable is found. -/
theorem claim_C2 :
    ∀ m : TelegramMessage, get_message_text m = getMessageTextDescribed m := by
  intro m
  unfold get_message_text getMessageTextDescribed audioDerivedDescribed
  dsimp only
  by_cases hc : optStrTruthy m.caption = true
  · rw [if_pos hc, if_pos hc]
  · rw [if_neg hc, if_neg hc]
    by_cases ht : optStrTruthy m.text = true
    · rw [if_pos ht, if_pos ht]
    · rw [if_neg ht, if_neg ht]
      cases m.audio with
      | none => rfl
      | some audio =>
        dsimp only
        by_cases hpe : (pyStrip (audio.performer.getD [])).isEmpty = true
        · have hpe' : pyStrip (audio.performer.getD []) = [] := List.isEmpty_iff.mp hpe
          by_cases hte : (pyStrip (audio.title.getD [])).isEmpty = true
          · have hte' : pyStrip (audio.title.getD []) = [] := List.isEmpty_iff.mp hte
            simp only [hpe, hte, Bool.not_true, Bool.false_and, Bool.and_false,
              Bool.false_eq_true, if_false, if_pos hpe, hte', if_true, ite_true]
            cases hf : audio.file_name with
            | none =>
              simp [optStrTruthy, hpe', pyStrip_idem, pyStrip_nil_eq]
            | some fn =>
              by_cases hfe : fn.isEmpty = true
              · simp [optStrTruthy, hfe, hpe', List.isEmpty_iff.mp hfe, pyStrip_nil_eq]
              · simp [optStrTruthy, hfe, hpe', pyStrip_idem, pyStrip_nil_eq]
          · have hver : pyStrip (pyStrip (audio.title.getD [])) =
                pyStrip (audio.title.getD []) := pyStrip_idem _
            simp [hpe, hte, hpe', hver]
        · by_cases hte : (pyStrip (audio.title.getD [])).isEmpty = true
          · have hver : pyStrip (pyStrip (audio.performer.getD [])) =
                pyStrip (audio.performer.getD []) := pyStrip_idem _
            simp [hpe, hte, List.isEmpty_iff.mp hte, hver]
          · have hpne : pyStrip (audio.performer.getD []) ≠ [] := by
              simpa [List.isEmpty_eq_false] using hpe
            have htne : pyStrip (audio.title.getD []) ≠ [] := by
              simpa [List.isEmpty_eq_false] using hte
            have hjoin : pyStrip (pyStrip (audio.performer.getD []) ++ chars " - " ++
                pyStrip (audio.title.getD [])) =
                pyStrip (audio.performer.getD []) ++ chars " - " ++
                  pyStrip (audio.title.getD []) :=
              pyStrip_join_noop _ (headNotWs_pyStrip _) hpne (lastNotWs_pyStrip _) htne
            have hjoin2 := hjoin
            rw [List.append_assoc] at hjoin2
            simp [hpe, hte, hjoin2, hpne]

/-- Witness for C2 at the specification's audio-fallback example. -/
theorem claim_C2_witness :
    get_message_text
        { message_id := 1,
          audio := some { performer := some (chars "Metallica"),
                          title := some (chars "Nothing Else Matters") } } =
      getMessageTextDescribed
        { message_id := 1,
          audio := some { performer := some (chars "Metallica"),
                          title := some (chars "Nothing Else Matters") } } ∧
    get_message_text
        { message_id := 1,
          audio := some { performer := some (chars "Metallica"),
                          title := some (chars "Nothing Else Matters") } } =
      some (chars "Metallica - Nothing Else Matters") :=
  ⟨claim_C2 _, by decide⟩

/-! ## Spotify search-response parsing (C5) -/

theorem dictGet_ne_nil {f : List (List Char × Json)} {k : List Char} {v : Json}
    (h : dictGet f k = some v) : f ≠ [] := by
  intro h0
  rw [h0] at h
  cases h

/-- C5: for every search response, `perform_search` parses leniently:
an absent (or non-object) `tracks` section or a non-sequence `items` value
yields a null result with no error; an item list containing no dict
elements yields null; a first dict item yields a summary in which a
non-list `artists` field degrades to an empty artist list and a non-dict
`external_urls` field degrades to an empty URL; whereas a non-200 response
or a 200 response whose body is unparseable or not a JSON object raises a
Spotify API error carrying the best-available detail (explicit
`error.message`, else the raw body, else "Unknown error", always with the
status code). -/
theorem claim_C5 :
    ∀ resp : HttpResponse,
      (resp.status ≠ 200 →
        perform_search resp = .error (.spotifyAPIError (searchFailMsg resp))) ∧
      (∀ f em s2, resp.json = some (.obj f) →
        dictGet f (chars "error") = some (.obj em) →
        dictGet em (chars "message") = some (.str s2) →
        searchFailDetail resp = s2) ∧
      (resp.json = none → resp.text ≠ [] → searchFailDetail resp = resp.text) ∧
      (resp.json = none → resp.text = [] → searchFailDetail resp = chars "Unknown error") ∧
      (resp.status = 200 → resp.json = none →
        perform_search resp =
          .error (.spotifyAPIError (chars "Spotify search response was not valid JSON"))) ∧
      (∀ j, resp.status = 200 → resp.json = some j → (∀ f, j ≠ .obj f) →
        perform_search resp =
          .error (.spotifyAPIError (chars "Spotify search response had unexpected format"))) ∧
      (∀ f, resp.status = 200 → resp.json = some (.obj f) →
        (∀ tf, dictGet f (chars "tracks") ≠ some (.obj tf)) →
        perform_search resp = .ok none) ∧
      (∀ f tf, resp.status = 200 → resp.json = some (.obj f) →
        dictGet f (chars "tracks") = some (.obj tf) →
        (dictGet tf (chars "items") = none ∨
          ∀ iv, dictGet tf (chars "items") = some iv → jsonSeqElems iv = none) →
        perform_search resp = .ok none) ∧
      (∀ f tf iv elems, resp.status = 200 → resp.json = some (.obj f) →
        dictGet f (chars "tracks") = some (.obj tf) →
        dictGet tf (chars "items") = some iv → jsonSeqElems iv = some elems →
        (∀ e ∈ elems, ∀ ef, e ≠ .obj ef) →
        perform_search resp = .ok none) ∧
      (∀ f tf iv elems first rest2, resp.status = 200 → resp.json = some (.obj f) →
        dictGet f (chars "tracks") = some (.obj tf) →
        dictGet tf (chars "items") = some iv → jsonSeqElems iv = some elems →
        elems.filterMap (fun j => match j with | .obj g => some g | _ => none) =
          first :: rest2 →
        perform_search resp = .ok (some
          { id := pyStr ((dictGet first (chars "id")).getD (.str []))
            name := pyStr ((dictGet first (chars "name")).getD (.str []))
            artists := extractArtists (dictGet first (chars "artists"))
            external_url := extractExternalUrl (dictGet first (chars "external_urls")) })) ∧
      (∀ g : List (List Char × Json), (∀ l, dictGet g (chars "artists") ≠ some (.arr l)) →
        extractArtists (dictGet g (chars "artists")) = []) ∧
      (∀ g : List (List Char × Json), (∀ u, dictGet g (chars "external_urls") ≠ some (.obj u)) →
        extractExternalUrl (dictGet g (chars "external_urls")) = []) := by
  intro resp
  refine ⟨?_, ?_, ?_, ?_, ?_, ?_, ?_, ?_, ?_, ?_, ?_, ?_⟩
  · intro h
    unfold perform_search
    rw [if_pos h]
  · intro f em s2 hj hde hdm
    unfold searchFailDetail
    dsimp only
    rw [hj]
    have hfne : f ≠ [] := dictGet_ne_nil hde
    rw [if_neg (by simpa [List.isEmpty_iff] using hfne), hde]
    simp [hdm, pyStr]
  · intro hj htext
    unfold searchFailDetail
    rw [hj]
    simp [pyTruthy, htext]
  · intro hj htext
    unfold searchFailDetail
    rw [hj]
    simp [pyTruthy, htext]
  · intro hs hj
    unfold perform_search
    rw [if_neg (by simp [hs]), hj]
  · intro j hs hj hno
    unfold perform_search
    rw [if_neg (by simp [hs]), hj]
    cases j with
    | obj f => exact absurd rfl (hno f)
    | null => rfl
    | bool b => rfl
    | num n => rfl
    | str s2 => rfl
    | arr l => rfl
  · intro f hs hj hno
    unfold perform_search
    rw [if_neg (by simp [hs]), hj]
    dsimp only
    cases hdg : dictGet f (chars "tracks") with
    | none => rfl
    | some v =>
      cases v with
      | obj tf => exact absurd hdg (hno tf)
      | null => rfl
      | bool b => rfl
      | num n => rfl
      | str s2 => rfl
      | arr l => rfl
  · intro f tf hs hj hdt hitems
    unfold perform_search
    rw [if_neg (by simp [hs]), hj]
    dsimp only
    rw [hdt]
    dsimp only
    rcases hitems with hnone | hseq
    · rw [hnone]
    · cases hdi : dictGet tf (chars "items") with
      | none => rfl
      | some iv =>
        dsimp only
        rw [hseq iv hdi]
  · intro f tf iv elems hs hj hdt hdi hse hnoobj
    unfold perform_search
    rw [if_neg (by simp [hs]), hj]
    dsimp only
    rw [hdt]
    dsimp only
    rw [hdi]
    dsimp only
    rw [hse]
    dsimp only
    have hfm : elems.filterMap (fun j => match j with | .obj g => some g | _ => none) = [] := by
      rw [List.filterMap_eq_nil_iff]
      intro e he
      cases e with
      | obj g => exact absurd rfl (hnoobj (.obj g) he g)
      | null => rfl
      | bool b => rfl
      | num n => rfl
      | str s2 => rfl
      | arr l => rfl
    rw [hfm]
  · intro f tf iv elems first rest2 hs hj hdt hdi hse hfm
    unfold perform_search
    rw [if_neg (by simp [hs]), hj]
    dsimp only
    rw [hdt]
    dsimp only
    rw [hdi]
    dsimp only
    rw [hse]
    dsimp only
    rw [hfm]
  · intro g hno
    unfold extractArtists
    cases hdg : dictGet g (chars "artists") with
    | none => rfl
    | some av =>
      cases av with
      | arr l => exact absurd hdg (hno l)
      | str s2 =>
        simp only [jsonSeqElems]
        rw [List.filterMap_eq_nil_iff.mpr]
        intro e he
        simp only [List.mem_map] at he
        obtain ⟨c0, _, rfl⟩ := he
        rfl
      | null => rfl
      | bool b => rfl
      | num n => rfl
      | obj f2 => rfl
  · intro g hno
    unfold extractExternalUrl
    cases hdg : dictGet g (chars "external_urls") with
    | none => rfl
    | some uv =>
      cases uv with
      | obj u => exact absurd hdg (hno u)
      | null => rfl
      | bool b => rfl
      | num n => rfl
      | str s2 => rfl
      | arr l => rfl

/-- Witness for C5 at a concrete non-200 response. -/
theorem claim_C5_witness :
    perform_search { status := 404, text := chars "raw", json := none } =
      .error (.spotifyAPIError
        (searchFailMsg { status := 404, text := chars "raw", json := none })) ∧
    searchFailMsg { status := 404, text := chars "raw", json := none } =
      chars "Spotify search request failed: status=404, detail=raw" :=
  ⟨(claim_C5 _).1 (by decide), by decide⟩

/-! ## Telegram caption editing (C10) -/

/-- The "chat id is falsy" condition of `edit_message_caption`: the
`chat_id` argument is `None` or empty. -/
def chatIdFalsy (chat_id : Option (List Char)) : Bool :=
  match chat_id with
  | none => true
  | some s => s.isEmpty

/-- C10: `edit_message_caption` raises `ValueError`, posting no HTTP
request, exactly when the caption strips to empty or when both the
`chat_id` argument and the client's `channel_id` are empty; every request
it does post carries the stripped caption; and at the orchestration
boundary (`update_telegram_caption_with_spotify_link`) this `ValueError`
is not caught and propagates. -/
theorem claim_C10 :
    ∀ (client : TelegramClient) (message_id : Int) (caption : List Char)
      (chat_id : Option (List Char)) (wire : TgEditRequest → HttpResponse),
      (pyStrip caption = [] →
        edit_message_caption client message_id caption chat_id wire =
          (none, .error (.valueError (chars "Telegram captions must contain non-empty text")))) ∧
      (pyStrip caption ≠ [] → chatIdFalsy chat_id = true → client.channel_id = [] →
        edit_message_caption client message_id caption chat_id wire =
          (none, .error (.valueError
            (chars "A chat_id is required to edit a Telegram message caption")))) ∧
      (∀ m, (edit_message_caption client message_id caption chat_id wire).2 =
          .error (.valueError m) →
        pyStrip caption = [] ∨ (chatIdFalsy chat_id = true ∧ client.channel_id = [])) ∧
      (∀ req, (edit_message_caption client message_id caption chat_id wire).1 = some req →
        req.caption = pyStrip caption) ∧
      (∀ (summary : SpotifyTrackSummary) (msg : TelegramMessage) (new_caption : List Char) m,
        build_caption_with_spotify_link msg.caption summary = some new_caption →
        new_caption ≠ msg.caption.getD [] →
        (edit_message_caption client msg.message_id new_caption
            (msg.chat.map (fun chat => intToStr chat.id)) wire).2 =
          .error (.valueError m) →
        (update_telegram_caption_with_spotify_link client summary (some msg) wire).2 =
          .error (.valueError m)) := by
  intro client message_id caption chat_id wire
  refine ⟨?_, ?_, ?_, ?_, ?_⟩
  · intro h
    unfold edit_message_caption
    dsimp only
    rw [if_pos (by simp [h])]
  · intro h1 h2 h3
    unfold edit_message_caption
    dsimp only
    rw [if_neg (by simpa [List.isEmpty_iff] using h1)]
    rw [if_pos]
    have hor : pyOrOptStr chat_id client.channel_id = [] := by
      cases chat_id with
      | none => exact h3
      | some s =>
        have hs : s.isEmpty = true := by simpa [chatIdFalsy] using h2
        simp [pyOrOptStr, hs, h3]
    simp [hor]
  · intro m h
    by_cases h1 : pyStrip caption = []
    · exact Or.inl h1
    · right
      unfold edit_message_caption at h
      dsimp only at h
      rw [if_neg (by simpa [List.isEmpty_iff] using h1)] at h
      by_cases h2 : (pyOrOptStr chat_id client.channel_id).isEmpty = true
      · have hor := List.isEmpty_iff.mp h2
        cases chat_id with
        | none => exact ⟨rfl, hor⟩
        | some s =>
          by_cases hs : s.isEmpty = true
          · refine ⟨by simpa [chatIdFalsy] using hs, ?_⟩
            simpa [pyOrOptStr, hs] using hor
          · have hsor : pyOrOptStr (some s) client.channel_id = s := by
              simp [pyOrOptStr, hs]
            rw [hsor] at hor
            exact absurd (by simp [hor]) hs
      · rw [if_neg h2] at h
        split_ifs at h with h3
        · simp at h
        · cases hjson : (wire (TgEditRequest.mk (pyOrOptStr chat_id client.channel_id)
              message_id (pyStrip caption))).json with
          | none =>
            rw [hjson] at h
            simp at h
          | some j =>
            rw [hjson] at h
            cases j with
            | obj fields =>
              dsimp only at h
              split_ifs at h
              simp at h
            | null => simp at h
            | bool b => simp at h
            | num n => simp at h
            | str s2 => simp at h
            | arr l => simp at h
  · intro req h
    unfold edit_message_caption at h
    dsimp only at h
    split_ifs at h with h1 h2 h3
    · dsimp only at h
      obtain rfl := Option.some.inj h
      rfl
    · cases hjson : (wire (TgEditRequest.mk (pyOrOptStr chat_id client.channel_id)
          message_id (pyStrip caption))).json with
      | none =>
        rw [hjson] at h
        dsimp only at h
        obtain rfl := Option.some.inj h
        rfl
      | some j =>
        rw [hjson] at h
        cases j with
        | obj fields =>
          dsimp only at h
          split_ifs at h with h4
          · obtain rfl := Option.some.inj h
            rfl
          · obtain rfl := Option.some.inj h
            rfl
        | null =>
          dsimp only at h
          obtain rfl := Option.some.inj h
          rfl
        | bool b =>
          dsimp only at h
          obtain rfl := Option.some.inj h
          rfl
        | num n =>
          dsimp only at h
          obtain rfl := Option.some.inj h
          rfl
        | str s2 =>
          dsimp only at h
          obtain rfl := Option.some.inj h
          rfl
        | arr l =>
          dsimp only at h
          obtain rfl := Option.some.inj h
          rfl
  · intro summary msg new_caption m hb hne hedit
    unfold update_telegram_caption_with_spotify_link
    dsimp only
    rw [hb]
    dsimp only
    rw [if_neg hne]
    rw [hedit]

/-- Witness for C10 at concrete arguments. -/
theorem claim_C10_witness :
    edit_message_caption { bot_token := ['t'], channel_id := ['c'] } 1 [' '] none
        (fun _ => { status := 200, text := [], json := none }) =
      (none, .error (.valueError (chars "Telegram captions must contain non-empty text"))) ∧
    edit_message_caption { bot_token := ['t'], channel_id := [] } 1 ['x'] none
        (fun _ => { status := 200, text := [], json := none }) =
      (none, .error (.valueError
        (chars "A chat_id is required to edit a Telegram message caption"))) :=
  ⟨(claim_C10 _ _ _ _ _).1 (by decide),
   (claim_C10 _ _ _ _ _).2.1 (by decide) (by decide) rfl⟩

/-! ## Webhook orchestration lemmas (C1, C6) -/

theorem natToStrGo_ne_nil : ∀ (fuel n : Nat) (acc : List Char), acc ≠ [] →
    natToStrGo fuel n acc ≠ [] := by
  intro fuel
  induction fuel with
  | zero =>
    intro n acc h
    exact h
  | succ fuel ih =>
    intro n acc h
    unfold natToStrGo
    dsimp only
    by_cases hn : n < 10
    · simp [hn]
    · rw [if_neg hn]
      exact ih _ _ (by simp)

theorem natToStr_ne_nil (n : Nat) : natToStr n ≠ [] := by
  unfold natToStr natToStrGo
  dsimp only
  by_cases hn : n < 10
  · simp [hn]
  · rw [if_neg hn]
    exact natToStrGo_ne_nil _ _ _ (by simp)

theorem intToStr_ne_nil (n : Int) : intToStr n ≠ [] := by
  unfold intToStr
  by_cases hn : n < 0
  · simp [hn]
  · rw [if_neg hn]
    exact natToStr_ne_nil _

theorem build_caption_strip_ne_nil {c : Option (List Char)} {s : SpotifyTrackSummary}
    {r : List Char} (h : build_caption_with_spotify_link c s = some r) :
    pyStrip r ≠ [] := by
  have hstrip : pyStrip (build_spotify_link s) ≠ [] := by
    intro h0
    rw [(build_caption_eq_none_iff c s).mpr h0] at h
    cases h
  have hcont := build_caption_contains h
  cases hl : pyStrip (build_spotify_link s) with
  | nil => exact absurd hl hstrip
  | cons c0 rest =>
    have hh := headNotWs_pyStrip (build_spotify_link s)
    rw [hl] at hh
    have hc0 : pyIsSpace c0 = false := by simpa [headNotWs] using hh
    have hmem0 : c0 ∈ pyStrip (build_spotify_link s) := by
      rw [hl]
      simp
    exact pyStrip_ne_nil_of_mem (List.IsInfix.mem hmem0 hcont) hc0

theorem edit_error_kind {client : TelegramClient} {mid : Int} {cap : List Char}
    {chat_id : Option (List Char)} {wire : TgEditRequest → HttpResponse} {e : PyErr}
    (hcap : pyStrip cap ≠ [])
    (hchat : ¬(chatIdFalsy chat_id = true ∧ client.channel_id = []))
    (h : (edit_message_caption client mid cap chat_id wire).2 = .error e) :
    ∃ msg, e = .telegramAPIError msg := by
  unfold edit_message_caption at h
  dsimp only at h
  rw [if_neg (by simpa [List.isEmpty_iff] using hcap)] at h
  have hor : ¬(pyOrOptStr chat_id client.channel_id).isEmpty = true := by
    intro h0
    have hnil := List.isEmpty_iff.mp h0
    apply hchat
    cases chat_id with
    | none => exact ⟨rfl, hnil⟩
    | some s =>
      by_cases hs : s.isEmpty = true
      · exact ⟨by simpa [chatIdFalsy] using hs, by simpa [pyOrOptStr, hs] using hnil⟩
      · have hsor : pyOrOptStr (some s) client.channel_id = s := by
          simp [pyOrOptStr, hs]
        rw [hsor] at hnil
        exact absurd (by simp [hnil]) hs
  rw [if_neg hor] at h
  split_ifs at h with h3
  · dsimp only at h
    exact ⟨_, (Except.error.inj h).symm⟩
  · cases hjson : (wire (TgEditRequest.mk (pyOrOptStr chat_id client.channel_id)
        mid (pyStrip cap))).json with
    | none =>
      rw [hjson] at h
      dsimp only at h
      exact ⟨_, (Except.error.inj h).symm⟩
    | some j =>
      rw [hjson] at h
      cases j with
      | obj fields =>
        dsimp only at h
        split_ifs at h with h4
        dsimp only at h
        exact ⟨_, (Except.error.inj h).symm⟩
      | null =>
        dsimp only at h
        exact ⟨_, (Except.error.inj h).symm⟩
      | bool b =>
        dsimp only at h
        exact ⟨_, (Except.error.inj h).symm⟩
      | num n =>
        dsimp only at h
        exact ⟨_, (Except.error.inj h).symm⟩
      | str s2 =>
        dsimp only at h
        exact ⟨_, (Except.error.inj h).symm⟩
      | arr l =>
        dsimp only at h
        exact ⟨_, (Except.error.inj h).symm⟩

theorem update_caption_ok {client : TelegramClient} {s : SpotifyTrackSummary}
    {msg : TelegramMessage} {wire : TgEditRequest → HttpResponse}
    (hch : msg.chat = none → client.channel_id ≠ []) :
    (update_telegram_caption_with_spotify_link client s (some msg) wire).2 = .ok () := by
  unfold update_telegram_caption_with_spotify_link
  dsimp only
  cases hb : build_caption_with_spotify_link msg.caption s with
  | none => rfl
  | some nc =>
    dsimp only
    by_cases hne : nc = msg.caption.getD []
    · rw [if_pos hne]
    · rw [if_neg hne]
      have hcap : pyStrip nc ≠ [] := build_caption_strip_ne_nil hb
      have hchat : ¬(chatIdFalsy (msg.chat.map (fun chat => intToStr chat.id)) = true ∧
          client.channel_id = []) := by
        rintro ⟨hcf, hcid⟩
        cases hchat0 : msg.chat with
        | none => exact (hch hchat0) hcid
        | some ch =>
          rw [hchat0] at hcf
          simp only [Option.map_some', chatIdFalsy] at hcf
          exact intToStr_ne_nil _ (List.isEmpty_iff.mp hcf)
      cases hres : (edit_message_caption client msg.message_id nc
          (msg.chat.map (fun chat => intToStr chat.id)) wire).2 with
      | ok payload => rfl
      | error e =>
        obtain ⟨m2, rfl⟩ := edit_error_kind hcap hchat hres
        rfl

theorem finishWithSummary_searched (message : TelegramMessage)
    (searched : List TrackCandidate) (summary : Option SpotifyTrackSummary)
    (telegram : Option TelegramClient) (wire : TgEditRequest → HttpResponse) :
    (finishWithSummary message searched summary telegram wire).searched = searched := by
  unfold finishWithSummary
  cases summary with
  | none => cases telegram <;> rfl
  | some s =>
    cases telegram with
    | none => rfl
    | some client =>
      dsimp only
      cases (update_telegram_caption_with_spotify_link client s (some message) wire).2 <;> rfl

theorem finishWithSummary_result_ok (message : TelegramMessage)
    (searched : List TrackCandidate) (summary : Option SpotifyTrackSummary)
    (telegram : Option TelegramClient) (wire : TgEditRequest → HttpResponse)
    (hch : ∀ client, telegram = some client → message.chat = none → client.channel_id ≠ []) :
    (finishWithSummary message searched summary telegram wire).result = .ok 204 := by
  unfold finishWithSummary
  cases summary with
  | none => cases telegram <;> rfl
  | some s =>
    cases telegram with
    | none => rfl
    | some client =>
      dsimp only
      have hupd : (update_telegram_caption_with_spotify_link client s
          (some message) wire).2 = .ok () := update_caption_ok (hch client rfl)
      rw [hupd]

/-- C1 counterexample: an update whose message carries no chat, processed
with a Telegram client whose `channel_id` is empty, makes the caption-edit
step raise a `ValueError` that is not caught, so the handler propagates an
exception instead of returning 204. -/
theorem claim_C1_counterexample :
    (handle_telegram_webhook
        { update_id := 1,
          channel_post := some { message_id := 7, caption := some (chars "Song") } }
        (some (fun _ => .ok (some
          { id := ['x'], name := ['n'], artists := [], external_url := ['u'] })))
        (some { bot_token := ['t'], channel_id := [] })
        (fun _ => { status := 200, text := [],
                    json := some (.obj [(chars "ok", .bool true)]) })).result =
      .error (.valueError (chars "A chat_id is required to edit a Telegram message caption")) :=
  rfl

/-- C1 (amended): provided that, whenever a Telegram client is configured,
its `channel_id` is non-empty or the processed message carries a chat, the
handler responds 204 and propagates no exception: every exception of the
Spotify search step is swallowed and every `TelegramAPIError` of the
caption-edit step is swallowed. -/
theorem claim_C1 :
    ∀ (payload : TelegramUpdate)
      (spotify : Option (List Char → Except PyErr (Option SpotifyTrackSummary)))
      (telegram : Option TelegramClient) (wire : TgEditRequest → HttpResponse),
      (∀ tc, telegram = some tc → tc.channel_id ≠ [] ∨
        ∀ m, extract_relevant_message payload = some m → m.chat ≠ none) →
      (handle_telegram_webhook payload spotify telegram wire).result = .ok 204 := by
  intro payload spotify telegram wire hsafe
  unfold handle_telegram_webhook
  cases hm : extract_relevant_message payload with
  | none => rfl
  | some m =>
    dsimp only
    cases hraw : get_message_text m with
    | none => rfl
    | some raw =>
      dsimp only
      by_cases hempty : (pyStrip raw).isEmpty = true
      · rw [if_pos hempty]
      · rw [if_neg hempty]
        unfold handleWithMessage
        dsimp only
        apply finishWithSummary_result_ok
        intro client hcl hchat
        rcases hsafe client hcl with hc | hall
        · exact hc
        · exact absurd hchat (hall m hm)

/-- Witness for C1 at a concrete update and clients. -/
theorem claim_C1_witness :
    (handle_telegram_webhook
        { update_id := 1,
          channel_post := some { message_id := 7, caption := some (chars "Song") } }
        (some (fun _ => .ok (some
          { id := ['x'], name := ['n'], artists := [], external_url := ['u'] })))
        (some { bot_token := ['t'], channel_id := ['c'] })
        (fun _ => { status := 200, text := [],
                    json := some (.obj [(chars "ok", .bool true)]) })).result =
      .ok 204 :=
  claim_C1 _ _ _ _ (fun tc h => Or.inl (by
    obtain rfl := Option.some.inj h
    decide))

/-- C6: `build_track_candidate` returns `none` exactly when the content is
`None` or normalizes to nothing (empty/whitespace-only); every candidate
it returns has a non-null query; and the orchestrator passes the Spotify
search step only candidates whose query is present and non-empty. -/
theorem claim_C6 :
    (∀ content : Option (List Char),
      (build_track_candidate content = none ↔
        (content = none ∨ ∃ s, content = some s ∧ pyStrip s = [])) ∧
      ∀ cand, build_track_candidate content = some cand → ∃ q, cand.query = some q) ∧
    (∀ (payload : TelegramUpdate)
      (spotify : Option (List Char → Except PyErr (Option SpotifyTrackSummary)))
      (telegram : Option TelegramClient) (wire : TgEditRequest → HttpResponse)
      (cand : TrackCandidate),
      cand ∈ (handle_telegram_webhook payload spotify telegram wire).searched →
      ∃ q, cand.query = some q ∧ q ≠ []) := by
  constructor
  · intro content
    constructor
    · constructor
      · intro h
        cases content with
        | none => exact Or.inl rfl
        | some s =>
          right
          refine ⟨s, rfl, ?_⟩
          unfold build_track_candidate at h
          dsimp only at h
          cases hx : extract_track_query (some s) with
          | some q =>
            rw [hx] at h
            cases h
          | none =>
            unfold extract_track_query at hx
            dsimp only at hx
            by_cases hst : (pyStrip s).isEmpty = true
            · exact List.isEmpty_iff.mp hst
            · rw [if_neg hst] at hx
              have hne : pySubWs (pyStrip s) ≠ [] :=
                pySubWs_ne_nil (fun h0 => hst (by simp [h0]))
              rw [if_neg (by simpa [List.isEmpty_iff] using hne)] at hx
              cases hx
      · intro h
        rcases h with h | ⟨s2, hs2, hstrip⟩
        · rw [h]
          rfl
        · rw [hs2]
          unfold build_track_candidate extract_track_query
          dsimp only
          rw [if_pos (by simp [hstrip])]
    · intro cand h
      cases content with
      | none => cases h
      | some s =>
        unfold build_track_candidate at h
        dsimp only at h
        cases hx : extract_track_query (some s) with
        | none =>
          rw [hx] at h
          cases h
        | some q =>
          rw [hx] at h
          dsimp only at h
          obtain rfl := Option.some.inj h
          exact ⟨q, rfl⟩
  · intro payload spotify telegram wire cand hmem
    unfold handle_telegram_webhook at hmem
    cases hm : extract_relevant_message payload with
    | none =>
      rw [hm] at hmem
      simp at hmem
    | some m =>
      rw [hm] at hmem
      dsimp only at hmem
      cases hraw : get_message_text m with
      | none =>
        rw [hraw] at hmem
        simp at hmem
      | some raw =>
        rw [hraw] at hmem
        dsimp only at hmem
        by_cases hempty : (pyStrip raw).isEmpty = true
        · rw [if_pos hempty] at hmem
          simp at hmem
        · rw [if_neg hempty] at hmem
          unfold handleWithMessage at hmem
          dsimp only at hmem
          rw [finishWithSummary_searched] at hmem
          by_cases hds : (spotify.isSome &&
              (match build_track_candidate (get_message_text m) with
               | some cand2 => optStrTruthy cand2.query
               | none => false)) = true
          · rw [if_pos hds] at hmem
            cases hcand : build_track_candidate (get_message_text m) with
            | none =>
              rw [hcand] at hmem
              simp at hmem
            | some cand2 =>
              rw [hcand] at hmem
              have hceq : cand = cand2 := by simpa using hmem
              subst hceq
              rw [hcand] at hds
              simp only [Bool.and_eq_true] at hds
              obtain ⟨_, hq⟩ := hds
              cases hq2 : cand.query with
              | none =>
                rw [hq2] at hq
                simp [optStrTruthy] at hq
              | some q =>
                rw [hq2] at hq
                refine ⟨q, rfl, ?_⟩
                simpa [optStrTruthy, List.isEmpty_eq_false] using hq
          · rw [if_neg hds] at hmem
            simp at hmem

/-- Witness for C6 at a concrete content and a concrete handler run. -/
theorem claim_C6_witness :
    (∃ q, ({ raw_content := chars "a - b", query := some (chars "a - b"),
             artist := some ['a'], title := some ['b'] } : TrackCandidate).query = some q) ∧
    (build_track_candidate (some (chars "  ")) = none ↔
      ((some (chars "  ") : Option (List Char)) = none ∨
        ∃ s, (some (chars "  ") : Option (List Char)) = some s ∧ pyStrip s = [])) :=
  ⟨(claim_C6.1 (some (chars "a - b"))).2 _ (by decide), (claim_C6.1 (some (chars "  "))).1⟩
